import Mathlib

/-!
# Verification of the threat-intel dashboard radar/graph layout core

Shallow embedding of the radar positional-encoding and relationship-graph
layout engine of the threat-intelligence dashboard (TypeScript/React source:
`src/components/RadarCanvas.tsx` in its two revisions, `src/types/threat.ts`,
`src/components/NetworkGraph.tsx`, and the older radar revision kept as
`unnamed/part_007`).

Modelling conventions:
* JavaScript 32-bit integer coercions (`<<`, `&`, `%` on `Int32` values) are
  embedded over `Nat`/`Int` with explicit reductions modulo `2^32`; a stored
  JS `Int32` is represented by its unsigned bit pattern (a `Nat` below
  `2^32`) and `toInt32` recovers the signed value.
* JS `%` is truncated remainder (sign of the dividend) and is embedded as
  `Int.tmod`.
* `charCodeAt` yields UTF-16 code units; all ids appearing here are ASCII,
  for which the code unit equals the character code point (`Char.toNat`).
* Canvas geometry is embedded over `ℝ`; `Math.cos/sin/sqrt/floor/abs` become
  `Real.cos/sin/sqrt`, `Int.floor`, `abs`/`Int.natAbs`.
-/

namespace ThreatIntel

/-! ## JavaScript 32-bit integer semantics -/

/-- Signed value of a 32-bit pattern: ECMAScript `ToInt32` applied to a
nonnegative integer (reduce mod `2^32`, subtract `2^32` when `≥ 2^31`). -/
def toInt32 (n : Nat) : Int :=
  if n % 4294967296 < 2147483648 then ((n % 4294967296 : Nat) : Int)
  else ((n % 4294967296 : Nat) : Int) - 4294967296

/-- Unsigned 32-bit pattern of an integer: ECMAScript `ToUint32`. -/
def toUint32 (i : Int) : Nat := (i % 4294967296).toNat

/-- One iteration of the hash loop shared by `hashToAngle`,
`hashToAngleOffset` and `getDefenderFunction`:
`hash = ((hash << 5) - hash) + charCode; hash = hash & hash`.
The accumulator is kept as the unsigned 32-bit pattern; `hash << 5` coerces
to `Int32` and wraps, the subtraction and addition are exact, and the final
`& ` coerces the result back to `Int32` (pattern `toUint32`). -/
def jsHashStep (hash : Nat) (c : Nat) : Nat :=
  toUint32 (toInt32 ((hash * 32) % 4294967296) - toInt32 hash + (c : Int))

/-- The hash loop over a list of UTF-16 code units, starting from 0. -/
def jsHash (codes : List Nat) : Nat := codes.foldl jsHashStep 0

/-- UTF-16 code units of a string (ASCII/BMP: the code point itself). -/
def strCodes (s : String) : List Nat := s.data.map Char.toNat

/-- The 32-bit pattern of the JS hash of a string id. -/
def jsStringHash (s : String) : Nat := jsHash (strCodes s)

/-- `hashToAngle` from `RadarCanvas.tsx` / `part_007`:
`((hash % 360) + 360) % 360` on the signed 32-bit hash value. -/
def hashToAngle (id : String) : Int :=
  (((toInt32 (jsStringHash id)).tmod 360 + 360).tmod 360)

/-- One step of the *specified* polynomial rolling hash:
`hash = hash*31 + charCode`, wrapping at 32 bits. -/
def specHashStep (hash c : Nat) : Nat := (hash * 31 + c) % 4294967296

/-- The spec-side polynomial rolling hash over the code units. -/
def specHash (codes : List Nat) : Nat := codes.foldl specHashStep 0

/-- The stable hash as the spec words it: polynomial rolling hash wrapping at
32 bits (read back as a signed value), finally reduced with
`((hash % range) + range) % range`. Written from the spec's words, for
comparison with `hashToAngle`, which is written from the source. -/
def stableHashSpec (id : String) (range : Int) : Int :=
  (((toInt32 (specHash (strCodes id))).tmod range + range).tmod range)

/-- Truncated remainder of a negated numerator (used to move `Int.tmod`
facts between signs). -/
theorem tmod_neg_numerator (a b : Int) : (-a).tmod b = -(a.tmod b) := by
  rw [Int.tmod_def, Int.tmod_def, Int.neg_tdiv]
  ring

/-- `((x tmod m) + m) tmod m` lands in `[0, m)` for `m > 0`. -/
theorem tmod_shift_bounds (x m : Int) (hm : 0 < m) :
    0 ≤ (x.tmod m + m).tmod m ∧ (x.tmod m + m).tmod m < m := by
  have hlt : x.tmod m < m := Int.tmod_lt_of_pos x hm
  have hgt : -m < x.tmod m := by
    rcases le_or_lt 0 x with hx | hx
    · have := Int.tmod_nonneg m hx
      omega
    · have hx2 : x.tmod m = -((-x).tmod m) := by
        rw [← tmod_neg_numerator, neg_neg]
      have := Int.tmod_lt_of_pos (-x) hm
      omega
  have hnn : (0 : Int) ≤ x.tmod m + m := by omega
  constructor
  · exact Int.tmod_nonneg m hnn
  · exact Int.tmod_lt_of_pos _ hm

/-- The JS loop step computes `(31*hash + c) mod 2^32` on patterns. -/
theorem jsHashStep_eq_specHashStep (h c : Nat) :
    jsHashStep h c = specHashStep h c := by
  unfold jsHashStep specHashStep toUint32 toInt32
  split <;> split <;> omega

/-- Folding the JS loop equals folding the specified rolling hash. -/
theorem jsHash_eq_specHash_fold (codes : List Nat) (h : Nat) :
    codes.foldl jsHashStep h = codes.foldl specHashStep h := by
  induction codes generalizing h with
  | nil => rfl
  | cons c rest ih =>
      simp only [List.foldl_cons]
      rw [jsHashStep_eq_specHashStep h c]
      exact ih _

/-- C1: for every string id the stable hash is the pure function given by the
polynomial rolling hash over the UTF-16 code units (`hash = hash*31 +
charCode`, wrapping at 32 bits) finally reduced by
`((hash % 360) + 360) % 360`; the result is a nonnegative integer strictly
below the range 360, and the empty string hashes to 0. (Determinism across
repeated calls is immediate: the embedding is a pure function of the id.) -/
theorem hashToAngle_spec :
    (∀ id : String, hashToAngle id = stableHashSpec id 360)
    ∧ (∀ id : String, 0 ≤ hashToAngle id ∧ hashToAngle id < 360)
    ∧ hashToAngle "" = 0 := by
  refine ⟨?_, ?_, ?_⟩
  · intro id
    unfold hashToAngle stableHashSpec jsStringHash jsHash specHash
    rw [jsHash_eq_specHash_fold _ 0]
  · intro id
    exact tmod_shift_bounds _ 360 (by norm_num)
  · rfl

/-! ## Data model (`src/types/threat.ts`)

Only the fields consumed by the layout/classification core are embedded;
the remaining presentational fields of the `Threat` interface (scores,
summaries, CVE lists, ...) are never read by the functions under
verification. -/

inductive SeverityLevel | critical | high | medium | low
deriving DecidableEq, Repr

inductive StatusType | new | active | mitigated
deriving DecidableEq, Repr

inductive AttackStage | pre | post
deriving DecidableEq, Repr

inductive DefenderFunction | protect | detect_respond
deriving DecidableEq, Repr

inductive QuadrantType | pre_protect | pre_detect | post_protect | post_detect
deriving DecidableEq, Repr

structure RadarThreatAsset where
  product_id : String
  product_name : String
deriving DecidableEq, Repr

structure Threat where
  id : String
  threat_name : String
  severity : SeverityLevel
  status : StatusType
  theta_deg : ℝ
  radius_norm : ℝ
  assets_impacted : List RadarThreatAsset
  mitre_tactics : List String

/-! ## Quadrant classification policy (`src/types/threat.ts`) -/

/-- JS `String.prototype.toLowerCase` restricted to ASCII data. -/
def strToLower (s : String) : String := String.mk (s.data.map Char.toLower)

/-- JS `a.includes(b)`: `b` occurs as a contiguous substring of `a`. -/
def jsIncludes (a b : String) : Bool := decide (b.data <:+: a.data)

def PRE_COMPROMISE_TACTICS : List String :=
  ["reconnaissance", "resource development", "initial access", "execution",
   "tactic for reconnaissance", "tactic for resource development",
   "tactic for initial access", "tactic for execution"]

def POST_COMPROMISE_TACTICS : List String :=
  ["persistence", "privilege escalation", "defense evasion",
   "credential access", "discovery", "lateral movement", "collection",
   "command and control", "exfiltration", "impact", "c2",
   "tactic for persistence", "tactic for privilege escalation",
   "tactic for defense evasion", "tactic for credential access",
   "tactic for discovery", "tactic for lateral movement",
   "tactic for collection", "tactic for command and control",
   "tactic for exfiltration", "tactic for impact"]

/-- `getAttackStage` from `threat.ts`: default `pre` on an empty tactic
list; `post` when any lower-cased tactic contains a post-compromise
keyword; otherwise `pre` (the source computes `hasPreTactic` but returns
`pre` on both of its branches). -/
def getAttackStage (mitreTactics : List String) : AttackStage :=
  if mitreTactics.isEmpty then AttackStage.pre
  else
    let normalizedTactics := mitreTactics.map strToLower
    let hasPostTactic := normalizedTactics.any fun tactic =>
      POST_COMPROMISE_TACTICS.any fun postTactic =>
        jsIncludes tactic (strToLower postTactic)
    if hasPostTactic then AttackStage.post
    else
      let hasPreTactic := normalizedTactics.any fun tactic =>
        PRE_COMPROMISE_TACTICS.any fun preTactic =>
          jsIncludes tactic (strToLower preTactic)
      if hasPreTactic then AttackStage.pre else AttackStage.pre

/-- `getDefenderFunction` from `threat.ts`. The optional `threatId`
argument is guarded by JS truthiness (`if (threatId)`), so both a missing
id and the empty string fall through to `detect_respond`. -/
def getDefenderFunction (status : StatusType) (threatId : Option String) :
    DefenderFunction :=
  if status = StatusType.mitigated then DefenderFunction.protect
  else
    match threatId with
    | some tid =>
        if tid = "" then DefenderFunction.detect_respond
        else if ((toInt32 (jsStringHash tid)).tmod 10).natAbs < 4 then
          DefenderFunction.protect
        else DefenderFunction.detect_respond
    | none => DefenderFunction.detect_respond

/-- `getQuadrant` from `threat.ts`. -/
def getQuadrant (threat : Threat) : QuadrantType :=
  let stage := getAttackStage threat.mitre_tactics
  let defenderFn := getDefenderFunction threat.status (some threat.id)
  if stage = AttackStage.pre ∧ defenderFn = DefenderFunction.protect then
    QuadrantType.pre_protect
  else if stage = AttackStage.pre ∧ defenderFn = DefenderFunction.detect_respond then
    QuadrantType.pre_detect
  else if stage = AttackStage.post ∧ defenderFn = DefenderFunction.protect then
    QuadrantType.post_protect
  else QuadrantType.post_detect

/-- The cross-product quadrant, as the spec words it ({pre,post} ×
{protect,detect_respond}); for comparison with `getQuadrant`. -/
def crossQuadrant : AttackStage → DefenderFunction → QuadrantType
  | AttackStage.pre, DefenderFunction.protect => QuadrantType.pre_protect
  | AttackStage.pre, DefenderFunction.detect_respond => QuadrantType.pre_detect
  | AttackStage.post, DefenderFunction.protect => QuadrantType.post_protect
  | AttackStage.post, DefenderFunction.detect_respond => QuadrantType.post_detect

/-- The example threat of the spec scenario:
`{id:"t1", severity:"critical", mitre_tactics:["Lateral Movement"], status:"active"}`. -/
def t1Threat : Threat :=
  { id := "t1", threat_name := "t1", severity := SeverityLevel.critical,
    status := StatusType.active, theta_deg := 0, radius_norm := 0,
    assets_impacted := [], mitre_tactics := ["Lateral Movement"] }

/-- A threat with an empty id, active status and a post-compromise tactic:
its hash satisfies `|hash| mod 10 = 0 < 4`, so the claimed split predicts
`protect` (hence quadrant `post_protect`), but the JS truthiness guard on
the id sends it to `detect_respond` (quadrant `post_detect`). -/
def emptyIdThreat : Threat :=
  { id := "", threat_name := "e", severity := SeverityLevel.critical,
    status := StatusType.active, theta_deg := 0, radius_norm := 0,
    assets_impacted := [], mitre_tactics := ["Lateral Movement"] }

/-- C2 counterexample: for the active threat with empty id, the claim's
split predicate (`|hash| mod 10 < 4`) holds, so the claim predicts the
`protect` defender function and quadrant `post × protect`; the code
returns `detect_respond` and quadrant `post × detect_respond`. -/
theorem getQuadrant_emptyId_counterexample :
    ((toInt32 (jsStringHash "")).tmod 10).natAbs < 4
    ∧ getDefenderFunction StatusType.active (some "") = DefenderFunction.detect_respond
    ∧ getAttackStage emptyIdThreat.mitre_tactics = AttackStage.post
    ∧ getQuadrant emptyIdThreat = QuadrantType.post_detect := by
  refine ⟨by decide, by decide, by decide, by decide⟩

/-- C2 (amended to threats with a non-empty id): mitigated status always
yields `protect`; for new/active status with a non-empty id the defender
function is `protect` iff `|hash(id)| mod 10 < 4`; the quadrant is the
cross-product of the attack stage with the defender function; and on the
spec's example threat `t1` the attack stage is `post` and the quadrant is
the reproducible value `post_detect`. -/
theorem getQuadrant_policy :
    (∀ tid : Option String,
        getDefenderFunction StatusType.mitigated tid = DefenderFunction.protect)
    ∧ (∀ st : StatusType, st ≠ StatusType.mitigated → ∀ tid : String, tid ≠ "" →
        (getDefenderFunction st (some tid) = DefenderFunction.protect ↔
          ((toInt32 (jsStringHash tid)).tmod 10).natAbs < 4))
    ∧ (∀ t : Threat, getQuadrant t =
        crossQuadrant (getAttackStage t.mitre_tactics)
          (getDefenderFunction t.status (some t.id)))
    ∧ getAttackStage t1Threat.mitre_tactics = AttackStage.post
    ∧ getQuadrant t1Threat = QuadrantType.post_detect := by
  refine ⟨?_, ?_, ?_, by decide, by decide⟩
  · intro tid
    rfl
  · intro st hst tid htid
    by_cases hc : ((toInt32 (jsStringHash tid)).tmod 10).natAbs < 4 <;>
      cases st <;> simp_all [getDefenderFunction]
  · intro t
    cases h1 : getAttackStage t.mitre_tactics <;>
      cases h2 : getDefenderFunction t.status (some t.id) <;>
        simp [getQuadrant, crossQuadrant, h1, h2]

/-- Witness for `getQuadrant_policy` at the concrete input `("t1", active)`. -/
theorem getQuadrant_policy_witness :
    getDefenderFunction StatusType.active (some "t1") = DefenderFunction.protect ↔
      ((toInt32 (jsStringHash "t1")).tmod 10).natAbs < 4 :=
  getQuadrant_policy.2.1 StatusType.active (by decide) "t1" (by decide)

/-! ## Radar layout, precomputed-polar model (`RadarCanvas.tsx`, first
revision): positions from the MongoDB `theta_deg` / `radius_norm` fields. -/

/-- Derived, ephemeral position record (`ThreatPosition` interface). -/
structure ThreatPosition where
  id : String
  x : ℝ
  y : ℝ
  threat : Threat

/-- Generic shape of a `forEach`/`push` loop that appends one element per
input: it is a `map`. -/
theorem foldl_push_eq_map {α β : Type} (f : α → β) :
    ∀ (l : List α) (acc : List β),
      l.foldl (fun ps t => ps ++ [f t]) acc = acc ++ l.map f := by
  intro l
  induction l with
  | nil => simp
  | cons t rest ih =>
      intro acc
      simp only [List.foldl_cons, List.map_cons]
      rw [ih]
      simp

namespace Polar

noncomputable def size : ℝ := 600

noncomputable def center : ℝ := size / 2

def rings : ℕ := 4

noncomputable def ringGap : ℝ := size * 0.85 / (2 * rings)

/-- `threatPositions` of the precomputed-polar revision: each threat is
pushed at `center + radius_norm·maxRadius·(cos θ, sin θ)` with
`θ = theta_deg` in degrees and `maxRadius = ringGap · rings`. -/
noncomputable def threatPositions (threats : List Threat) : List ThreatPosition :=
  threats.foldl (fun positions threat =>
    let angle := threat.theta_deg
    let normalizedRadius := threat.radius_norm
    let maxRadius := ringGap * rings
    let radius := normalizedRadius * maxRadius
    let x := center + radius * Real.cos (angle * Real.pi / 180)
    let y := center + radius * Real.sin (angle * Real.pi / 180)
    positions ++ [{ id := threat.id, x := x, y := y, threat := threat }]) []

end Polar

/-- C3: the precomputed-polar layout maps each threat, independently of all
others and of its severity/status/tactics, to the closed-form point
`(300 + radius_norm·255·cos θ, 300 + radius_norm·255·sin θ)` with
`θ = theta_deg·π/180` and `255 = ringGap·rings`; neither quadrant
classification nor collision avoidance enters (the position of a threat
depends only on its `theta_deg`/`radius_norm` polar fields). -/
theorem threatPositions_polar_spec :
    (∀ threats : List Threat, Polar.threatPositions threats = threats.map (fun t =>
        { id := t.id,
          x := 300 + t.radius_norm * 255 * Real.cos (t.theta_deg * Real.pi / 180),
          y := 300 + t.radius_norm * 255 * Real.sin (t.theta_deg * Real.pi / 180),
          threat := t }))
    ∧ (∀ t u : Threat, t.theta_deg = u.theta_deg → t.radius_norm = u.radius_norm →
        (Polar.threatPositions [t]).map (fun p => (p.x, p.y)) =
          (Polar.threatPositions [u]).map (fun p => (p.x, p.y))) := by
  have hmap : ∀ threats : List Threat,
      Polar.threatPositions threats = threats.map (fun t =>
        { id := t.id,
          x := 300 + t.radius_norm * 255 * Real.cos (t.theta_deg * Real.pi / 180),
          y := 300 + t.radius_norm * 255 * Real.sin (t.theta_deg * Real.pi / 180),
          threat := t }) := by
    intro threats
    unfold Polar.threatPositions
    rw [foldl_push_eq_map (fun t : Threat =>
      ({ id := t.id,
         x := Polar.center + t.radius_norm * (Polar.ringGap * Polar.rings) *
                Real.cos (t.theta_deg * Real.pi / 180),
         y := Polar.center + t.radius_norm * (Polar.ringGap * Polar.rings) *
                Real.sin (t.theta_deg * Real.pi / 180),
         threat := t } : ThreatPosition)) threats []]
    rw [List.nil_append]
    apply List.map_congr_left
    intro t _
    have hc : Polar.center = 300 := by
      norm_num [Polar.center, Polar.size]
    have hg : Polar.ringGap * (Polar.rings : ℝ) = 255 := by
      norm_num [Polar.ringGap, Polar.size, Polar.rings]
    rw [hc, hg]
  refine ⟨hmap, ?_⟩
  intro t u h1 h2
  rw [hmap, hmap]
  simp [h1, h2]

/-- Witness for `threatPositions_polar_spec`: two single-threat layouts that
agree on the polar fields but differ in severity/status/tactics produce the
same coordinates. -/
theorem threatPositions_polar_spec_witness :
    (Polar.threatPositions [t1Threat]).map (fun p => (p.x, p.y)) =
      (Polar.threatPositions [emptyIdThreat]).map (fun p => (p.x, p.y)) :=
  threatPositions_polar_spec.2 t1Threat emptyIdThreat rfl rfl

/-! ## Severity post-filter (`filteredPositions`, both radar revisions) -/

/-- The `activeSeverityFilter` prop: a severity value or the string `'All'`. -/
inductive SeverityFilter
  | All
  | only (sev : SeverityLevel)
deriving DecidableEq

/-- `filteredPositions`: identity for `'All'`, otherwise a `filter` of the
already-positioned list on the threat's severity. -/
def filteredPositions (activeSeverityFilter : SeverityFilter)
    (threatPositions : List ThreatPosition) : List ThreatPosition :=
  match activeSeverityFilter with
  | SeverityFilter.All => threatPositions
  | SeverityFilter.only sev =>
      threatPositions.filter (fun pos => decide (pos.threat.severity = sev))

/-- C4: filtering by severity is a pure post-filter of the positioned set:
`'All'` returns the whole list, a severity filter returns exactly the
subsequence whose threat severity matches, the result is always a sublist
of the input (so no repositioning can occur), and every retained element is
an element of the unfiltered list (hence keeps its exact `(x, y)`), with
matching severity under a severity filter. -/
theorem filteredPositions_pure_postfilter :
    (∀ ps : List ThreatPosition, filteredPositions SeverityFilter.All ps = ps)
    ∧ (∀ (sev : SeverityLevel) (ps : List ThreatPosition),
        filteredPositions (SeverityFilter.only sev) ps =
          ps.filter (fun pos => decide (pos.threat.severity = sev)))
    ∧ (∀ (f : SeverityFilter) (ps : List ThreatPosition),
        (filteredPositions f ps).Sublist ps)
    ∧ (∀ (f : SeverityFilter) (ps : List ThreatPosition) (p : ThreatPosition),
        p ∈ filteredPositions f ps → p ∈ ps)
    ∧ (∀ (sev : SeverityLevel) (ps : List ThreatPosition) (p : ThreatPosition),
        p ∈ filteredPositions (SeverityFilter.only sev) ps →
          p.threat.severity = sev) := by
  refine ⟨fun ps => rfl, fun sev ps => rfl, ?_, ?_, ?_⟩
  · intro f ps
    cases f with
    | All => exact List.Sublist.refl ps
    | only sev => exact List.filter_sublist ps
  · intro f ps p hp
    cases f with
    | All => exact hp
    | only sev => exact List.mem_of_mem_filter hp
  · intro sev ps p hp
    have := List.of_mem_filter hp
    simpa using this

/-- A concrete position used by witnesses. -/
def t1Pos : ThreatPosition :=
  { id := "t1", x := 0, y := 0, threat := t1Threat }

/-- Witness for `filteredPositions_pure_postfilter` at a concrete filtered
singleton. -/
theorem filteredPositions_pure_postfilter_witness :
    t1Pos.threat.severity = SeverityLevel.critical :=
  filteredPositions_pure_postfilter.2.2.2.2 SeverityLevel.critical [t1Pos] t1Pos
    (by simp [filteredPositions, t1Pos, t1Threat])

/-! ## Hit-testing (`findThreatAtPosition` of the quadrant revision:
8px pick radius, zoom/pan inversion).

The pointer coordinates are taken in canvas space (the source first
subtracts the canvas bounding rectangle's offset, modelled here as zero,
which matches the claim's phrasing "a pointer mapping to canvas (x, y)"). -/

/-- The zoom/pan inversion applied before the scan:
`adjusted = center + (pointer - center - pan) / zoom` on each axis. -/
noncomputable def adjustedPoint (size zoom panX panY x y : ℝ) : ℝ × ℝ :=
  let centerX := size / 2
  let centerY := size / 2
  (centerX + (x - centerX - panX) / zoom, centerY + (y - centerY - panY) / zoom)

open Classical in
/-- The `for (const pos of filteredPositions)` scan: the first position whose
Euclidean distance to the adjusted point is below 8 (the quadrant-view pick
radius). -/
noncomputable def findFirstHit (ax ay : ℝ) :
    List ThreatPosition → Option ThreatPosition
  | [] => none
  | pos :: rest =>
      if Real.sqrt ((pos.x - ax) ^ 2 + (pos.y - ay) ^ 2) < 8 then some pos
      else findFirstHit ax ay rest

/-- `findThreatAtPosition`: invert the zoom/pan transform, then linear-scan
the filtered positions. -/
noncomputable def findThreatAtPosition (size zoom panX panY : ℝ)
    (filteredPositions : List ThreatPosition) (x y : ℝ) : Option ThreatPosition :=
  findFirstHit (adjustedPoint size zoom panX panY x y).1
    (adjustedPoint size zoom panX panY x y).2 filteredPositions

/-- A threat positioned at canvas `(300, 300)` (spec example scenario). -/
def threat300Pos : ThreatPosition :=
  { id := "t1", x := 300, y := 300, threat := t1Threat }

/-- `findFirstHit` returns `some p` exactly when `p` is the first listed
position within the pick radius of the adjusted point. -/
theorem findFirstHit_eq_some_iff (ax ay : ℝ) (ps : List ThreatPosition)
    (p : ThreatPosition) :
    findFirstHit ax ay ps = some p ↔
      ∃ l1 l2, ps = l1 ++ p :: l2 ∧
        Real.sqrt ((p.x - ax) ^ 2 + (p.y - ay) ^ 2) < 8 ∧
        ∀ q ∈ l1, ¬ Real.sqrt ((q.x - ax) ^ 2 + (q.y - ay) ^ 2) < 8 := by
  induction ps with
  | nil =>
      simp [findFirstHit]
  | cons q rest ih =>
      rw [findFirstHit]
      by_cases h : Real.sqrt ((q.x - ax) ^ 2 + (q.y - ay) ^ 2) < 8
      · rw [if_pos h]
        constructor
        · intro hqp
          obtain rfl : q = p := by injection hqp
          exact ⟨[], rest, rfl, h, by simp⟩
        · rintro ⟨l1, l2, heq, hp, hmiss⟩
          cases l1 with
          | nil =>
              injection heq with h1 h2
              rw [h1]
          | cons r l1 =>
              injection heq with h1 h2
              exact absurd (h1 ▸ h) (hmiss r (by simp))
      · rw [if_neg h, ih]
        constructor
        · rintro ⟨l1, l2, heq, hp, hmiss⟩
          refine ⟨q :: l1, l2, by rw [heq]; rfl, hp, ?_⟩
          intro r hr
          rcases List.mem_cons.mp hr with rfl | hr2
          · exact h
          · exact hmiss r hr2
        · rintro ⟨l1, l2, heq, hp, hmiss⟩
          cases l1 with
          | nil =>
              injection heq with h1 h2
              rw [h1] at h
              exact absurd hp h
          | cons r l1 =>
              injection heq with h1 h2
              exact ⟨l1, l2, h2, hp, fun s hs => hmiss s (List.mem_cons_of_mem _ hs)⟩

/-- `findFirstHit` returns `none` exactly when no position is within the
pick radius. -/
theorem findFirstHit_eq_none_iff (ax ay : ℝ) (ps : List ThreatPosition) :
    findFirstHit ax ay ps = none ↔
      ∀ q ∈ ps, ¬ Real.sqrt ((q.x - ax) ^ 2 + (q.y - ay) ^ 2) < 8 := by
  induction ps with
  | nil => simp [findFirstHit]
  | cons q rest ih =>
      rw [findFirstHit]
      by_cases h : Real.sqrt ((q.x - ax) ^ 2 + (q.y - ay) ^ 2) < 8
      · rw [if_pos h]
        simp [h]
      · rw [if_neg h, ih]
        simp only [List.mem_cons, forall_eq_or_imp]
        exact ⟨fun hr => ⟨h, hr⟩, fun hr => hr.2⟩

/-- C5: hit-testing inverts the zoom/pan transform into canvas space and
scans the filtered positions in list order: it returns `some p` exactly when
`p` is the first listed position with Euclidean distance to the adjusted
point below the 8px pick radius, `none` exactly when no position is within
the radius (in particular `none`, without erroring, on the empty set); with
zoom 1 and pan (0,0) the threat at (300,300) is hit from the canvas point
(302,301) and missed from (350,350). -/
theorem findThreatAtPosition_spec :
    (∀ size zoom panX panY x y : ℝ,
        findThreatAtPosition size zoom panX panY [] x y = none)
    ∧ (∀ (size zoom panX panY x y : ℝ) (ps : List ThreatPosition)
          (p : ThreatPosition),
        findThreatAtPosition size zoom panX panY ps x y = some p ↔
          ∃ l1 l2, ps = l1 ++ p :: l2 ∧
            Real.sqrt ((p.x - (adjustedPoint size zoom panX panY x y).1) ^ 2 +
                (p.y - (adjustedPoint size zoom panX panY x y).2) ^ 2) < 8 ∧
            ∀ q ∈ l1,
              ¬ Real.sqrt ((q.x - (adjustedPoint size zoom panX panY x y).1) ^ 2 +
                  (q.y - (adjustedPoint size zoom panX panY x y).2) ^ 2) < 8)
    ∧ (∀ (size zoom panX panY x y : ℝ) (ps : List ThreatPosition),
        findThreatAtPosition size zoom panX panY ps x y = none ↔
          ∀ q ∈ ps,
            ¬ Real.sqrt ((q.x - (adjustedPoint size zoom panX panY x y).1) ^ 2 +
                (q.y - (adjustedPoint size zoom panX panY x y).2) ^ 2) < 8)
    ∧ findThreatAtPosition 600 1 0 0 [threat300Pos] 302 301 = some threat300Pos
    ∧ findThreatAtPosition 600 1 0 0 [threat300Pos] 350 350 = none := by
  have hadj1 : adjustedPoint 600 1 0 0 302 301 = (302, 301) := by
    unfold adjustedPoint
    norm_num
  have hadj2 : adjustedPoint 600 1 0 0 350 350 = (350, 350) := by
    unfold adjustedPoint
    norm_num
  refine ⟨fun _ _ _ _ _ _ => rfl, ?_, ?_, ?_, ?_⟩
  · intro size zoom panX panY x y ps p
    exact findFirstHit_eq_some_iff _ _ ps p
  · intro size zoom panX panY x y ps
    exact findFirstHit_eq_none_iff _ _ ps
  · show findFirstHit _ _ _ = _
    rw [hadj1, findFirstHit]
    rw [if_pos]
    show Real.sqrt ((threat300Pos.x - 302) ^ 2 + (threat300Pos.y - 301) ^ 2) < 8
    have : (threat300Pos.x - 302) ^ 2 + (threat300Pos.y - 301) ^ 2 = 5 := by
      norm_num [threat300Pos]
    rw [this]
    exact (Real.sqrt_lt' (by norm_num)).mpr (by norm_num)
  · show findFirstHit _ _ _ = _
    rw [hadj2, findFirstHit]
    rw [if_neg]
    · rfl
    show ¬ Real.sqrt ((threat300Pos.x - 350) ^ 2 + (threat300Pos.y - 350) ^ 2) < 8
    have : (threat300Pos.x - 350) ^ 2 + (threat300Pos.y - 350) ^ 2 = 5000 := by
      norm_num [threat300Pos]
    rw [this, not_lt]
    exact (Real.le_sqrt' (by norm_num)).mpr (by norm_num)

/-! ## Pan/zoom/drag interaction machine (`RadarCanvas.tsx`, quadrant
revision, `handleMouseDown` / `handleMouseMove` / `handleMouseUp` /
`handleClick`).

Event model: for a press-drag-release gesture the browser dispatches
`mousedown`, a sequence of `mousemove`s, `mouseup`, and then a `click`
(press and release happened on the same element). React flushes the state
updates queued by each discrete event handler synchronously before the next
event's handlers run, so every handler observes the state left behind by
the previous handler; updates inside one handler read the pre-handler
snapshot. The machine below threads the component state through the event
sequence accordingly and records every `onThreatClick` dispatch. -/

/-- The component state touched by the interaction handlers
(`useState` initial values: zoom 1, pan (0,0), not dragging, origin (0,0),
not moved). -/
structure RadarUIState where
  zoom : ℝ
  panX : ℝ
  panY : ℝ
  isDragging : Bool
  dragStartX : ℝ
  dragStartY : ℝ
  panStartX : ℝ
  panStartY : ℝ
  hasMoved : Bool

def initialUIState : RadarUIState :=
  { zoom := 1, panX := 0, panY := 0, isDragging := false,
    dragStartX := 0, dragStartY := 0, panStartX := 0, panStartY := 0,
    hasMoved := false }

/-- The pointer events reaching the canvas handlers; coordinates are client
coordinates (canvas offset modelled as zero). -/
inductive RadarEvent
  | mouseDown (x y : ℝ) (button : Nat) (ctrlOrMeta : Bool)
  | mouseMove (x y : ℝ)
  | mouseUp
  | click (x y : ℝ)

open Classical in
/-- One event handler dispatch; returns the updated state and the list of
threat ids passed to `onThreatClick`. Mirrors the four source handlers:
* `handleMouseDown`: middle/right button or ctrl/meta starts a drag
  unconditionally; plain left button starts a drag only on empty space.
* `handleMouseMove`: while dragging, sets `hasMoved` once either axis delta
  exceeds 3px, and updates the pan by the delta from the drag origin.
* `handleMouseUp`: clears `isDragging` and clears `hasMoved`.
* `handleClick`: dispatches `onThreatClick` on the hit-tested threat when
  `hasMoved` is unset. -/
noncomputable def handleEvent (size : ℝ) (positions : List ThreatPosition)
    (s : RadarUIState) : RadarEvent → RadarUIState × List String
  | RadarEvent.mouseDown x y button ctrlOrMeta =>
      if button = 1 ∨ ctrlOrMeta = true ∨ button = 2 then
        ({ s with
            isDragging := true
            hasMoved := false
            dragStartX := x
            dragStartY := y
            panStartX := s.panX
            panStartY := s.panY }, [])
      else if button = 0 then
        match findThreatAtPosition size s.zoom s.panX s.panY positions x y with
        | none =>
            ({ s with
                isDragging := true
                hasMoved := false
                dragStartX := x
                dragStartY := y
                panStartX := s.panX
                panStartY := s.panY }, [])
        | some _ => (s, [])
      else (s, [])
  | RadarEvent.mouseMove x y =>
      if s.isDragging then
        let deltaX := x - s.dragStartX
        let deltaY := y - s.dragStartY
        let moved := if 3 < |deltaX| ∨ 3 < |deltaY| then true else s.hasMoved
        ({ s with
            hasMoved := moved
            panX := s.panStartX + deltaX
            panY := s.panStartY + deltaY }, [])
      else (s, [])
  | RadarEvent.mouseUp =>
      ({ s with
          isDragging := false
          hasMoved := false }, [])
  | RadarEvent.click x y =>
      if s.hasMoved = false then
        match findThreatAtPosition size s.zoom s.panX s.panY positions x y with
        | some pos => (s, [pos.id])
        | none => (s, [])
      else (s, [])

/-- Run an event sequence, accumulating all dispatched ids. -/
noncomputable def runEvents (size : ℝ) (positions : List ThreatPosition) :
    RadarUIState → List RadarEvent → RadarUIState × List String
  | s, [] => (s, [])
  | s, e :: rest =>
      let r1 := handleEvent size positions s e
      let r2 := runEvents size positions r1.1 rest
      (r2.1, r1.2 ++ r2.2)

/-- A threat placed at canvas point (100,100) (the adjusted point under the
drag origin of the spec's example gesture). -/
def dragThreatPos : ThreatPosition :=
  { id := "tdrag", x := 100, y := 100, threat := t1Threat }

/-- C6 (bug exhibit): a modifier-initiated drag from (100,100) to (104,101)
(delta 4px, beyond the 3px deadzone) over a threat sets the `hasMoved` flag,
yet releasing the pointer still dispatches a selection: `handleMouseUp`
clears `hasMoved` before the browser's trailing `click` event runs
`handleClick`, so the guard `if (!hasMoved)` never sees the flag and the
click is dispatched to hit-testing, which finds the threat under the
release point (the pan moved the content with the cursor). The claim — no
selection is ever dispatched for a moved gesture — fails on this input. -/
theorem dragGesture_dispatches_click :
    ((runEvents 600 [dragThreatPos] initialUIState
        [RadarEvent.mouseDown 100 100 0 true,
         RadarEvent.mouseMove 104 101]).1.hasMoved = true)
    ∧ ((runEvents 600 [dragThreatPos] initialUIState
        [RadarEvent.mouseDown 100 100 0 true,
         RadarEvent.mouseMove 104 101,
         RadarEvent.mouseUp,
         RadarEvent.click 104 101]).2 = ["tdrag"]) := by
  have ha4 : |(4:ℝ)| = 4 := abs_of_nonneg (by norm_num)
  have ha4b : |(104:ℝ) - 100| = 4 := by rw [show (104:ℝ) - 100 = 4 by norm_num]; exact ha4
  have ha1 : |(1:ℝ)| = 1 := abs_of_nonneg (by norm_num)
  have ha1b : |(101:ℝ) - 100| = 1 := by rw [show (101:ℝ) - 100 = 1 by norm_num]; exact ha1
  have hdist : Real.sqrt ((dragThreatPos.x - (adjustedPoint 600 1 4 1 104 101).1) ^ 2 +
      (dragThreatPos.y - (adjustedPoint 600 1 4 1 104 101).2) ^ 2) < 8 := by
    have h0 : (dragThreatPos.x - (adjustedPoint 600 1 4 1 104 101).1) ^ 2 +
        (dragThreatPos.y - (adjustedPoint 600 1 4 1 104 101).2) ^ 2 = 0 := by
      simp only [adjustedPoint, dragThreatPos]
      norm_num
    rw [h0, Real.sqrt_zero]
    norm_num
  have hhit : findThreatAtPosition 600 1 4 1 [dragThreatPos] 104 101 = some dragThreatPos := by
    unfold findThreatAtPosition
    rw [findFirstHit, if_pos hdist]
  constructor <;>
    norm_num [runEvents, handleEvent, initialUIState, ha4, ha4b, ha1, ha1b, hhit] <;>
      rfl

/-! ## Radar layout, ring model with collision avoidance (`unnamed/part_007`)

This revision's `Threat` carries a single `asset` string and the severity
enum; positions are placed on the severity ring at a hash-derived angle,
with an up-to-10-attempt collision-avoidance loop (rotate +30° on conflict,
accept the 10th candidate unconditionally). -/

/-- The threat shape consumed by the ring-model revision. -/
structure RingThreat where
  id : String
  severity : SeverityLevel
  asset : String
deriving DecidableEq, Repr

/-- Position record of the ring-model revision. -/
structure RingPosition where
  id : String
  x : ℝ
  y : ℝ
  threat : RingThreat

/-- The four asset-domain quadrants of the keyword classifier. -/
inductive Compass | NW | NE | SE | SW
deriving DecidableEq, Repr

/-- One step of the fallback hash in `getQuadrantForAsset`:
`acc => charCode + ((acc << 5) - acc)`. Unlike the id hash, the
accumulator is never re-clamped with `&`, so it is a plain number; only
the `<< 5` coerces through `ToInt32`. -/
def fallbackHashStep (acc : Int) (c : Nat) : Int :=
  (c : Int) + (toInt32 ((toUint32 acc * 32) % 4294967296) - acc)

/-- The `split('').reduce(...)` fallback hash over the asset's code units. -/
def fallbackHash (codes : List Nat) : Int := codes.foldl fallbackHashStep 0

/-- `getQuadrantForAsset`: ordered keyword sets, first match wins; hash
fallback spread over `[SE, NE, SW, NW]`. -/
def getQuadrantForAsset (asset : String) : Compass :=
  let lowerAsset := strToLower asset
  if ["sso", "iam", "ad", "entra", "okta", "identity", "auth"].any
      (fun kw => jsIncludes lowerAsset kw) then Compass.NW
  else if ["edr", "mail", "browser", "endpoint", "windows", "linux", "email",
      "workstation"].any (fun kw => jsIncludes lowerAsset kw) then Compass.NE
  else if ["aws", "gcp", "k8s", "kubernetes", "container", "saas", "cloud",
      "s3", "serverless", "npm", "java", "web application"].any
      (fun kw => jsIncludes lowerAsset kw) then Compass.SE
  else if ["vpn", "fw", "firewall", "iot", "ics", "network", "edge", "router",
      "switch", "database", "db", "redis", "postgresql"].any
      (fun kw => jsIncludes lowerAsset kw) then Compass.SW
  else
    let hash := fallbackHash (strCodes asset)
    [Compass.SE, Compass.NE, Compass.SW, Compass.NW].get
      ⟨hash.natAbs % 4, Nat.mod_lt _ (by norm_num)⟩

namespace Ring

noncomputable def size : ℝ := 600

noncomputable def center : ℝ := size / 2

def rings : ℕ := 4

noncomputable def ringGap : ℝ := size * 0.85 / (2 * rings)

/-- `severityToRing`: critical = 1 (innermost) … low = 4 (outermost). -/
def severityToRing : SeverityLevel → ℕ
  | SeverityLevel.critical => 1
  | SeverityLevel.high => 2
  | SeverityLevel.medium => 3
  | SeverityLevel.low => 4

/-- Quadrant angular ranges `[min, max)` in canvas degrees. -/
def quadrantAngleRange : Compass → ℤ × ℤ
  | Compass.SE => (0, 90)
  | Compass.SW => (90, 180)
  | Compass.NW => (180, 270)
  | Compass.NE => (270, 360)

/-- The candidate point for a given ring radius and angle (degrees):
`center + radius·(cos, sin)(angle·π/180)`. -/
noncomputable def pointAt (radius angle : ℝ) : ℝ × ℝ :=
  (center + radius * Real.cos (angle * Real.pi / 180),
   center + radius * Real.sin (angle * Real.pi / 180))

/-- `radius = ring * ringGap` for the threat's severity ring. -/
noncomputable def ringRadius (t : RingThreat) : ℝ :=
  (severityToRing t.severity : ℝ) * ringGap

/-- The initial candidate angle:
`min + (hashToAngle(threat.id) % angleRange)`. -/
noncomputable def initialAngle (t : RingThreat) : ℝ :=
  let quadrant := getQuadrantForAsset t.asset
  let mn := (quadrantAngleRange quadrant).1
  let mx := (quadrantAngleRange quadrant).2
  (mn : ℝ) + (((hashToAngle t.id).tmod (mx - mn) : ℤ) : ℝ)

/-- The collision test of one attempt: some already-placed position lies
closer than the 60px minimum separation to the candidate `(x, y)`. -/
def collision (positions : List RingPosition) (x y : ℝ) : Prop :=
  ∃ pos ∈ positions,
    Real.sqrt ((pos.x - x) ^ 2 + (pos.y - y) ^ 2) < 60

open Classical in
/-- The `while (attempts < 10)` loop, with `fuel = 9 - attempts` remaining
retries: at `fuel = 0` (i.e. `attempts === 9`) the candidate is accepted
unconditionally; otherwise a colliding candidate is retried at +30°. -/
noncomputable def placeLoop (positions : List RingPosition) (radius : ℝ) :
    ℝ → ℕ → ℝ × ℝ
  | angle, 0 => pointAt radius angle
  | angle, Nat.succ n =>
      if collision positions (pointAt radius angle).1 (pointAt radius angle).2 then
        placeLoop positions radius (angle + 30) n
      else pointAt radius angle

/-- One iteration of the `threats.forEach` body: place the threat against
the already-accumulated positions and push the result. -/
noncomputable def ringStep (positions : List RingPosition) (threat : RingThreat) :
    List RingPosition :=
  let p := placeLoop positions (ringRadius threat) (initialAngle threat) 9
  positions ++ [{ id := threat.id, x := p.1, y := p.2, threat := threat }]

/-- `threatPositions` of the ring-model revision. -/
noncomputable def threatPositions (threats : List RingThreat) : List RingPosition :=
  threats.foldl ringStep []

/-- Euclidean distance between two placed positions, as the source computes
it inside the collision test. -/
noncomputable def posDist (p q : RingPosition) : ℝ :=
  Real.sqrt ((p.x - q.x) ^ 2 + (p.y - q.y) ^ 2)

/-- A position that was accepted as the unconditional 10th candidate:
its point is the initial angle rotated by 9·30° = 270°. -/
noncomputable def IsTenthCandidate (p : RingPosition) : Prop :=
  (p.x, p.y) = pointAt (ringRadius p.threat) (initialAngle p.threat + 270)

/-- Each placement is either ≥ 60px from every already-placed position or
is the final (fuel-exhausted) candidate at `angle + 30·fuel`. -/
theorem placeLoop_spec (positions : List RingPosition) (radius : ℝ) :
    ∀ (fuel : ℕ) (angle : ℝ),
      (∀ q ∈ positions,
        60 ≤ Real.sqrt ((q.x - (placeLoop positions radius angle fuel).1) ^ 2 +
              (q.y - (placeLoop positions radius angle fuel).2) ^ 2))
      ∨ placeLoop positions radius angle fuel = pointAt radius (angle + 30 * fuel) := by
  intro fuel
  induction fuel with
  | zero =>
      intro angle
      right
      rw [placeLoop]
      norm_num
  | succ n ih =>
      intro angle
      rw [placeLoop]
      by_cases hc : collision positions (pointAt radius angle).1 (pointAt radius angle).2
      · rw [if_pos hc]
        rcases ih (angle + 30) with h | h
        · exact Or.inl h
        · right
          rw [h]
          congr 1
          push_cast
          ring
      · rw [if_neg hc]
        left
        intro q hq
        by_contra hlt
        exact hc ⟨q, hq, by rw [not_le] at hlt; exact hlt⟩

/-- Every result of the placement loop lies on the circle of the given
radius. -/
theorem placeLoop_on_circle (positions : List RingPosition) (radius : ℝ) :
    ∀ (fuel : ℕ) (angle : ℝ),
      ∃ θ : ℝ, placeLoop positions radius angle fuel = pointAt radius θ := by
  intro fuel
  induction fuel with
  | zero => intro angle; exact ⟨angle, by rw [placeLoop]⟩
  | succ n ih =>
      intro angle
      rw [placeLoop]
      by_cases hc : collision positions (pointAt radius angle).1 (pointAt radius angle).2
      · rw [if_pos hc]; exact ih (angle + 30)
      · rw [if_neg hc]; exact ⟨angle, rfl⟩

/-- The fold appends exactly one position per threat. -/
theorem foldl_ringStep_length (threats : List RingThreat) :
    ∀ acc : List RingPosition,
      (threats.foldl ringStep acc).length = acc.length + threats.length := by
  induction threats with
  | nil => intro acc; simp
  | cons t rest ih =>
      intro acc
      rw [List.foldl_cons, ih]
      simp [ringStep]
      omega

/-- Length of the ring layout output. -/
theorem threatPositions_ring_length (threats : List RingThreat) :
    (threatPositions threats).length = threats.length := by
  rw [threatPositions, foldl_ringStep_length]
  simp

/-- Separation invariant: every position is at distance ≥ 60 from all
positions placed before it, or was accepted as the unconditional 10th
candidate. -/
def SepInv (l : List RingPosition) : Prop :=
  ∀ (i j : ℕ) (hij : i < j) (hj : j < l.length),
    60 ≤ posDist l[i] l[j] ∨ IsTenthCandidate l[j]

/-- Appending a position that is either separated from the whole prefix or
a 10th candidate preserves the invariant. -/
theorem sepInv_snoc {acc : List RingPosition} {p : RingPosition}
    (h : SepInv acc)
    (hsep : (∀ q ∈ acc,
        60 ≤ Real.sqrt ((q.x - p.x) ^ 2 + (q.y - p.y) ^ 2))
      ∨ IsTenthCandidate p) :
    SepInv (acc ++ [p]) := by
  intro i j hij hj
  rw [List.length_append, List.length_singleton] at hj
  by_cases hja : j < acc.length
  · have hia : i < acc.length := Nat.lt_trans hij hja
    rw [List.getElem_append_left hia, List.getElem_append_left hja]
    exact h i j hij hja
  · have hj2 : j = acc.length := by omega
    subst hj2
    have hia : i < acc.length := hij
    rw [List.getElem_append_left hia,
      List.getElem_concat_length acc p acc.length rfl]
    rcases hsep with hs | ht
    · left
      exact hs (acc[i]) (List.getElem_mem hia)
    · right
      exact ht

/-- One `forEach` iteration preserves the separation invariant. -/
theorem sepInv_ringStep {acc : List RingPosition} (h : SepInv acc)
    (t : RingThreat) : SepInv (ringStep acc t) := by
  have hspec := placeLoop_spec acc (ringRadius t) 9 (initialAngle t)
  simp only [ringStep]
  apply sepInv_snoc h
  rcases hspec with hs | hten
  · left
    intro q hq
    exact hs q hq
  · right
    unfold IsTenthCandidate
    have h30 : initialAngle t + 30 * (9 : ℕ) = initialAngle t + 270 := by
      norm_num
    rw [← h30, ← hten]

/-- The whole fold preserves the separation invariant. -/
theorem sepInv_foldl (threats : List RingThreat) :
    ∀ acc : List RingPosition, SepInv acc →
      SepInv (threats.foldl ringStep acc) := by
  induction threats with
  | nil => intro acc h; simpa using h
  | cons t rest ih =>
      intro acc h
      rw [List.foldl_cons]
      exact ih _ (sepInv_ringStep h t)

/-- A position on the severity ring of its threat. -/
def OnRing (p : RingPosition) : Prop :=
  ∃ θ : ℝ, (p.x, p.y) = pointAt (ringRadius p.threat) θ

/-- Every position produced by the fold (beyond the accumulator) lies on its
threat's severity ring; the threats of produced positions come from the
input list. -/
theorem onRing_foldl (threats : List RingThreat) :
    ∀ acc : List RingPosition,
      (∀ p ∈ acc, OnRing p ∧ p.threat ∈ threats ∨ p ∈ acc) →
      ∀ p ∈ threats.foldl ringStep acc,
        (OnRing p ∧ (p.threat ∈ threats ∨ p ∈ acc)) ∨ p ∈ acc := by
  induction threats with
  | nil => intro acc _ p hp; right; simpa using hp
  | cons t rest ih =>
      intro acc _ p hp
      rw [List.foldl_cons] at hp
      have hstep := ih (ringStep acc t) (by intro q hq; right; exact hq) p hp
      rcases hstep with ⟨hor, hmem⟩ | hmem
      · left
        refine ⟨hor, ?_⟩
        rcases hmem with hm | hm
        · left; exact List.mem_cons_of_mem t hm
        · simp only [ringStep, List.mem_append, List.mem_singleton] at hm
          rcases hm with hm | hm
          · right; exact hm
          · left
            subst hm
            simp
      · simp only [ringStep, List.mem_append, List.mem_singleton] at hmem
        rcases hmem with hm | hm
        · right; exact hm
        · left
          subst hm
          constructor
          · obtain ⟨θ, hθ⟩ :=
              placeLoop_on_circle acc (ringRadius t) 9 (initialAngle t)
            exact ⟨θ, by rw [← hθ]⟩
          · left; simp

/-- Two points on a circle of radius ≤ 64 whose angles (in degrees) fall in
the same 30°-bucket modulo 360° are closer than 60px. -/
theorem close_on_circle (r a b : ℝ) (hr0 : 0 ≤ r) (hr : r ≤ 64)
    (hb : ((⌊a / 30⌋ : ℤ) : ZMod 12) = ((⌊b / 30⌋ : ℤ) : ZMod 12)) :
    Real.sqrt (((pointAt r a).1 - (pointAt r b).1) ^ 2 +
        ((pointAt r a).2 - (pointAt r b).2) ^ 2) < 60 := by
  have hmod : ⌊a / 30⌋ ≡ ⌊b / 30⌋ [ZMOD (12 : ℕ)] :=
    (ZMod.intCast_eq_intCast_iff _ _ _).mp hb
  obtain ⟨k, hk⟩ := hmod.dvd
  set e : ℝ := a - b + 360 * (k : ℝ) with he
  have hfa1 : ((⌊a / 30⌋ : ℤ) : ℝ) ≤ a / 30 := Int.floor_le _
  have hfa2 : a / 30 < (⌊a / 30⌋ : ℤ) + 1 := Int.lt_floor_add_one _
  have hfb1 : ((⌊b / 30⌋ : ℤ) : ℝ) ≤ b / 30 := Int.floor_le _
  have hfb2 : b / 30 < (⌊b / 30⌋ : ℤ) + 1 := Int.lt_floor_add_one _
  have hkr : ((⌊b / 30⌋ : ℤ) : ℝ) - ((⌊a / 30⌋ : ℤ) : ℝ) = 12 * (k : ℝ) := by
    have := congrArg (fun z : ℤ => (z : ℝ)) hk
    push_cast at this
    linarith
  have he1 : e < 30 := by
    rw [he]
    nlinarith
  have he2 : -30 < e := by
    rw [he]
    nlinarith
  have hAB : a * Real.pi / 180 - b * Real.pi / 180 =
      e * Real.pi / 180 + (-k : ℤ) * (2 * Real.pi) := by
    rw [he]
    push_cast
    field_simp
    ring
  have hcos : Real.cos (a * Real.pi / 180 - b * Real.pi / 180) =
      Real.cos (e * Real.pi / 180) := by
    rw [hAB, Real.cos_add_int_mul_two_pi]
  have hd2 : ((pointAt r a).1 - (pointAt r b).1) ^ 2 +
      ((pointAt r a).2 - (pointAt r b).2) ^ 2 =
      r ^ 2 * (2 - 2 * Real.cos (a * Real.pi / 180 - b * Real.pi / 180)) := by
    simp only [pointAt]
    rw [Real.cos_sub]
    linear_combination (r ^ 2) * Real.sin_sq_add_cos_sq (a * Real.pi / 180) +
      (r ^ 2) * Real.sin_sq_add_cos_sq (b * Real.pi / 180)
  have hbound : 2 - 2 * Real.cos (e * Real.pi / 180) ≤ (e * Real.pi / 180) ^ 2 := by
    have h1 := @Real.one_sub_sq_div_two_le_cos (e * Real.pi / 180)
    linarith
  have hpi : Real.pi < 3.15 := Real.pi_lt_d2
  have hpi0 : 0 < Real.pi := Real.pi_pos
  have he3 : e ^ 2 < 900 := by
    have h : e ^ 2 < 30 ^ 2 := sq_lt_sq' he2 he1
    linarith
  have hpisq : Real.pi ^ 2 < 9.9225 := by
    have h : Real.pi ^ 2 < 3.15 ^ 2 := by
      exact pow_lt_pow_left₀ hpi (le_of_lt hpi0) (by norm_num)
    nlinarith
  have hesq : (e * Real.pi / 180) ^ 2 < 0.276 := by
    have hrw : (e * Real.pi / 180) ^ 2 = e ^ 2 * Real.pi ^ 2 / 32400 := by ring
    rw [hrw]
    have hmul : e ^ 2 * Real.pi ^ 2 < 900 * 9.9225 :=
      mul_lt_mul'' he3 hpisq (sq_nonneg e) (sq_nonneg Real.pi)
    linarith
  have hcos1 : Real.cos (e * Real.pi / 180) ≤ 1 := Real.cos_le_one _
  have hr2 : r ^ 2 ≤ 4096 := by
    have h : r ^ 2 ≤ 64 ^ 2 := pow_le_pow_left₀ hr0 hr 2
    linarith
  have hXpos : 0 ≤ 2 - 2 * Real.cos (e * Real.pi / 180) := by linarith
  have hfinal : ((pointAt r a).1 - (pointAt r b).1) ^ 2 +
      ((pointAt r a).2 - (pointAt r b).2) ^ 2 < 3600 := by
    rw [hd2, hcos]
    have step1 : r ^ 2 * (2 - 2 * Real.cos (e * Real.pi / 180)) ≤
        4096 * (2 - 2 * Real.cos (e * Real.pi / 180)) :=
      mul_le_mul_of_nonneg_right hr2 hXpos
    have step2 : 4096 * (2 - 2 * Real.cos (e * Real.pi / 180)) ≤
        4096 * (e * Real.pi / 180) ^ 2 := by linarith
    have step3 : 4096 * (e * Real.pi / 180) ^ 2 < 4096 * 0.276 := by linarith
    linarith
  have h60 : (0:ℝ) < 60 := by norm_num
  rw [Real.sqrt_lt' h60]
  calc ((pointAt r a).1 - (pointAt r b).1) ^ 2 +
      ((pointAt r a).2 - (pointAt r b).2) ^ 2 < 3600 := hfinal
    _ = 60 ^ 2 := by norm_num

/-- More than 12 positions on one circle of radius ≤ 64 contain a pair
closer than 60px (pigeonhole over the 30° buckets). -/
theorem circle_crowding {n : ℕ} (hn : 12 < n) (f : Fin n → RingPosition)
    (r : ℝ) (hr0 : 0 ≤ r) (hr : r ≤ 64)
    (hcirc : ∀ i, ∃ θ : ℝ, ((f i).x, (f i).y) = pointAt r θ) :
    ∃ i j : Fin n, i ≠ j ∧ posDist (f i) (f j) < 60 := by
  choose θ hθ using hcirc
  obtain ⟨i, j, hij, hbeq⟩ := Fintype.exists_ne_map_eq_of_card_lt
    (fun i : Fin n => ((⌊θ i / 30⌋ : ℤ) : ZMod 12))
    (by rw [ZMod.card, Fintype.card_fin]; exact hn)
  refine ⟨i, j, hij, ?_⟩
  have hxi : (f i).x = (pointAt r (θ i)).1 := congrArg Prod.fst (hθ i)
  have hyi : (f i).y = (pointAt r (θ i)).2 := congrArg Prod.snd (hθ i)
  have hxj : (f j).x = (pointAt r (θ j)).1 := congrArg Prod.fst (hθ j)
  have hyj : (f j).y = (pointAt r (θ j)).2 := congrArg Prod.snd (hθ j)
  rw [posDist, hxi, hyi, hxj, hyj]
  exact close_on_circle r (θ i) (θ j) hr0 hr hbeq

end Ring

/-- C7 (amended): in the ring layout every position is either at distance
≥ 60px from every position placed before it (the collision-avoidance loop
exited without a conflict) or is the unconditionally accepted 10th
candidate, at the initial hash angle rotated by 9·30° = 270°. The original
universally-quantified 60px-separation guarantee is refuted by
`ringLayout_crowding_counterexample`: with ≥ 50 same-severity threats all
positions share one ring, which cannot hold 50 points pairwise 60px
apart. -/
theorem ringLayout_separation (threats : List RingThreat) (i j : ℕ)
    (hij : i < j) (hj : j < (Ring.threatPositions threats).length) :
    60 ≤ Ring.posDist
        ((Ring.threatPositions threats).get ⟨i, Nat.lt_trans hij hj⟩)
        ((Ring.threatPositions threats).get ⟨j, hj⟩)
    ∨ Ring.IsTenthCandidate ((Ring.threatPositions threats).get ⟨j, hj⟩) := by
  have h : Ring.SepInv (Ring.threatPositions threats) := by
    apply Ring.sepInv_foldl threats []
    intro i j hij hj
    simp at hj
  have h2 := h i j hij hj
  simpa [List.get_eq_getElem] using h2

/-- A two-threat input for the separation witness. -/
def c7Pair : List RingThreat :=
  [{ id := "a", severity := SeverityLevel.critical, asset := "aws s3" },
   { id := "b", severity := SeverityLevel.critical, asset := "aws s3" }]

/-- Witness for `ringLayout_separation` at the concrete two-threat input. -/
theorem ringLayout_separation_witness :
    60 ≤ Ring.posDist
        ((Ring.threatPositions c7Pair).get
          ⟨0, by rw [Ring.threatPositions_ring_length]; norm_num [c7Pair]⟩)
        ((Ring.threatPositions c7Pair).get
          ⟨1, by rw [Ring.threatPositions_ring_length]; norm_num [c7Pair]⟩)
    ∨ Ring.IsTenthCandidate ((Ring.threatPositions c7Pair).get
        ⟨1, by rw [Ring.threatPositions_ring_length]; norm_num [c7Pair]⟩) :=
  ringLayout_separation c7Pair 0 1 (by norm_num)
    (by rw [Ring.threatPositions_ring_length]; norm_num [c7Pair])

/-- 50 distinct-id critical threats: the concrete input refuting the
universal 60px-separation claim. -/
def c7Input : List RingThreat :=
  (List.range 50).map fun i =>
    { id := "t" ++ toString i, severity := SeverityLevel.critical,
      asset := "web server" }

/-- C7 counterexample: the 50 distinct-id critical-severity threats of
`c7Input` all land on the critical ring (radius 63.75), and two of the
computed positions are closer than the 60px minimum separation — the
10th-attempt unconditional acceptance cannot be avoided on a ring whose
circumference holds at most 12 points pairwise 60px apart. -/
theorem ringLayout_crowding_counterexample :
    c7Input.length = 50
    ∧ (∀ t ∈ c7Input, t.severity = SeverityLevel.critical)
    ∧ (c7Input.map RingThreat.id).Nodup
    ∧ ∃ i j : Fin (Ring.threatPositions c7Input).length, i ≠ j ∧
        Ring.posDist ((Ring.threatPositions c7Input).get i)
          ((Ring.threatPositions c7Input).get j) < 60 := by
  have hlen50 : c7Input.length = 50 := by simp [c7Input]
  have hcrit : ∀ t ∈ c7Input, t.severity = SeverityLevel.critical := by
    intro t ht
    simp only [c7Input, List.mem_map] at ht
    obtain ⟨i, _, rfl⟩ := ht
    rfl
  refine ⟨hlen50, hcrit, by decide, ?_⟩
  have hlen : (Ring.threatPositions c7Input).length = 50 := by
    rw [Ring.threatPositions_ring_length, hlen50]
  have honring : ∀ p ∈ Ring.threatPositions c7Input,
      ∃ θ : ℝ, (p.x, p.y) = Ring.pointAt 63.75 θ := by
    intro p hp
    have h := Ring.onRing_foldl c7Input [] (by intro q hq; simp at hq) p hp
    rcases h with ⟨⟨θ, hθ⟩, hmem⟩ | habs
    · rcases hmem with hmem | habs
      · have hsev : p.threat.severity = SeverityLevel.critical := hcrit _ hmem
        have hrad : Ring.ringRadius p.threat = 63.75 := by
          rw [Ring.ringRadius, hsev]
          norm_num [Ring.severityToRing, Ring.ringGap, Ring.size, Ring.rings]
        exact ⟨θ, by rw [hθ, hrad]⟩
      · simp at habs
    · simp at habs
  have hn : 12 < (Ring.threatPositions c7Input).length := by omega
  exact Ring.circle_crowding hn (fun i => (Ring.threatPositions c7Input).get i)
    63.75 (by norm_num) (by norm_num)
    (fun i => honring _ (List.get_mem _ i.1 i.2))

/-! ## Relationship-graph construction (`NetworkGraph.tsx`, `renderGraph`
node/link construction with deterministic circle seeding) -/

inductive NodeType | threat | asset
deriving DecidableEq, Repr

/-- `GraphNode`: id, label, type, optional severity, seeded position, and
the post-simulation pin (`fx`/`fy`). -/
structure GraphNode where
  id : String
  label : String
  type : NodeType
  severity : Option SeverityLevel
  x : ℝ
  y : ℝ
  fx : Option ℝ := none
  fy : Option ℝ := none

/-- `GraphLink`: source and target node ids. -/
structure GraphLink where
  source : String
  target : String
deriving DecidableEq, Repr

/-- The spotlight filters consumed by `renderGraph`. -/
structure GraphFilters where
  showThreats : Bool
  showAssets : Bool
  severities : List SeverityLevel
deriving DecidableEq, Repr

namespace Graph

/-- The running state of the node/link construction loop: the node and link
arrays, the `assetMap` key set (insertion order), and `nodeIndex`. -/
structure BuildState where
  nodes : List GraphNode
  links : List GraphLink
  assetIds : List String
  nodeIndex : ℕ

/-- `radius = Math.min(width, height) * 0.3` of the seeding circle. -/
noncomputable def seedRadius (width height : ℝ) : ℝ := min width height * 0.3

/-- `totalNodes = filteredThreats.length + Σ assets_impacted.length`. -/
def graphTotalNodes (filteredThreats : List Threat) : ℕ :=
  filteredThreats.length +
    (filteredThreats.map (fun t => t.assets_impacted.length)).sum

/-- Seeded x coordinate: `width/2 + cos(nodeIndex/totalNodes · 2π) · radius`. -/
noncomputable def seedX (width radius : ℝ) (nodeIndex totalNodes : ℕ) : ℝ :=
  width / 2 +
    Real.cos ((nodeIndex : ℝ) / (totalNodes : ℝ) * (2 * Real.pi)) * radius

/-- Seeded y coordinate: `height/2 + sin(nodeIndex/totalNodes · 2π) · radius`. -/
noncomputable def seedY (height radius : ℝ) (nodeIndex totalNodes : ℕ) : ℝ :=
  height / 2 +
    Real.sin ((nodeIndex : ℝ) / (totalNodes : ℝ) * (2 * Real.pi)) * radius

/-- The body of the inner `threat.assets_impacted.forEach`: push a new asset
node unless the product id is already in the map (and only when
`showAssets`), then push the (threat, asset) link when both node types are
shown. -/
noncomputable def assetStep (f : GraphFilters) (width height : ℝ)
    (totalNodes : ℕ) (threat : Threat) (st : BuildState)
    (asset : RadarThreatAsset) : BuildState :=
  let st3 :=
    if f.showAssets = true ∧ st.assetIds.contains asset.product_id = false then
      { st with
          nodes := st.nodes ++
            [{ id := asset.product_id, label := asset.product_name,
               type := NodeType.asset, severity := none,
               x := seedX width (seedRadius width height) st.nodeIndex totalNodes,
               y := seedY height (seedRadius width height) st.nodeIndex totalNodes }]
          assetIds := st.assetIds ++ [asset.product_id]
          nodeIndex := st.nodeIndex + 1 }
    else st
  if f.showThreats = true ∧ f.showAssets = true then
    { st3 with
        links := st3.links ++
          [{ source := threat.id, target := asset.product_id }] }
  else st3

/-- The body of the outer `filteredThreats.forEach`: push the threat node
when `showThreats`, then fold over its impacted assets. -/
noncomputable def threatStep (f : GraphFilters) (width height : ℝ)
    (totalNodes : ℕ) (st : BuildState) (threat : Threat) : BuildState :=
  let st1 :=
    if f.showThreats = true then
      { st with
          nodes := st.nodes ++
            [{ id := threat.id, label := threat.threat_name,
               type := NodeType.threat, severity := some threat.severity,
               x := seedX width (seedRadius width height) st.nodeIndex totalNodes,
               y := seedY height (seedRadius width height) st.nodeIndex totalNodes }]
          nodeIndex := st.nodeIndex + 1 }
    else st
  threat.assets_impacted.foldl (assetStep f width height totalNodes threat) st1

/-- The node/link construction of `renderGraph`: severity filter, then the
seeded forEach fold. -/
noncomputable def buildGraph (threats : List Threat) (f : GraphFilters)
    (width height : ℝ) : List GraphNode × List GraphLink :=
  let filteredThreats := threats.filter (fun t => f.severities.contains t.severity)
  let totalNodes := graphTotalNodes filteredThreats
  let st := filteredThreats.foldl (threatStep f width height totalNodes)
    ⟨[], [], [], 0⟩
  (st.nodes, st.links)

/-- Construction invariant:
the asset-node ids (in order) are exactly the `assetMap` keys and are
deduplicated; every link's source is a present threat node and its target a
present asset node; node types respect the show filters; no links unless
both types are shown; and `nodeIndex` counts the pushed nodes, each seeded
on the circle at its own index. -/
def GraphInv (f : GraphFilters) (width height : ℝ) (totalNodes : ℕ)
    (st : BuildState) : Prop :=
  ((st.nodes.filter (fun n => n.type == NodeType.asset)).map GraphNode.id
      = st.assetIds)
  ∧ st.assetIds.Nodup
  ∧ (∀ l ∈ st.links,
      (∃ n ∈ st.nodes, n.type = NodeType.threat ∧ n.id = l.source)
      ∧ (∃ n ∈ st.nodes, n.type = NodeType.asset ∧ n.id = l.target))
  ∧ (f.showThreats = false → ∀ n ∈ st.nodes, n.type ≠ NodeType.threat)
  ∧ (f.showAssets = false → ∀ n ∈ st.nodes, n.type ≠ NodeType.asset)
  ∧ ((f.showThreats && f.showAssets) = false → st.links = [])
  ∧ st.nodeIndex = st.nodes.length
  ∧ (∀ (k : ℕ) (hk : k < st.nodes.length),
      st.nodes[k].x = seedX width (seedRadius width height) k totalNodes
      ∧ st.nodes[k].y = seedY height (seedRadius width height) k totalNodes)

/-- The current threat's node is already present (when threats are shown). -/
def ThreatNodePresent (f : GraphFilters) (threat : Threat)
    (st : BuildState) : Prop :=
  f.showThreats = true →
    ∃ n ∈ st.nodes, n.type = NodeType.threat ∧ n.id = threat.id

/-- The initial state satisfies the invariant. -/
theorem graphInv_init (f : GraphFilters) (width height : ℝ) (totalNodes : ℕ) :
    GraphInv f width height totalNodes ⟨[], [], [], 0⟩ := by
  refine ⟨rfl, List.nodup_nil, ?_, ?_, ?_, ?_, rfl, ?_⟩
  · intro l hl; simp at hl
  · intro _ n hn; simp at hn
  · intro _ n hn; simp at hn
  · intro _; rfl
  · intro k hk; simp at hk

/-- Pushing a link whose endpoints are present preserves the invariant. -/
theorem graphInv_push_link {f : GraphFilters} {width height : ℝ}
    {totalNodes : ℕ} {st : BuildState} (hinv : GraphInv f width height totalNodes st)
    {src tgt : String}
    (hshow : f.showThreats = true ∧ f.showAssets = true)
    (hsrc : ∃ n ∈ st.nodes, n.type = NodeType.threat ∧ n.id = src)
    (htgt : ∃ n ∈ st.nodes, n.type = NodeType.asset ∧ n.id = tgt) :
    GraphInv f width height totalNodes
      { st with links := st.links ++ [{ source := src, target := tgt }] } := by
  obtain ⟨h1, h2, h3, h4, h5, h6, h7, h8⟩ := hinv
  refine ⟨h1, h2, ?_, h4, h5, ?_, h7, h8⟩
  · intro l hl
    rcases List.mem_append.mp hl with hl | hl
    · exact h3 l hl
    · rw [List.mem_singleton] at hl
      subst hl
      exact ⟨hsrc, htgt⟩
  · intro hcon
    rw [hshow.1, hshow.2] at hcon
    simp at hcon

/-- Pushing a fresh asset node preserves the invariant. -/
theorem graphInv_push_asset {f : GraphFilters} {width height : ℝ}
    {totalNodes : ℕ} {st : BuildState} (hinv : GraphInv f width height totalNodes st)
    (pid pname : String) (hshow : f.showAssets = true)
    (hnew : st.assetIds.contains pid = false) :
    GraphInv f width height totalNodes
      { st with
          nodes := st.nodes ++
            [{ id := pid, label := pname, type := NodeType.asset,
               severity := none,
               x := seedX width (seedRadius width height) st.nodeIndex totalNodes,
               y := seedY height (seedRadius width height) st.nodeIndex totalNodes }]
          assetIds := st.assetIds ++ [pid]
          nodeIndex := st.nodeIndex + 1 } := by
  obtain ⟨h1, h2, h3, h4, h5, h6, h7, h8⟩ := hinv
  have hnotmem : pid ∉ st.assetIds := by simpa using hnew
  refine ⟨?_, ?_, ?_, ?_, ?_, ?_, ?_, ?_⟩
  · rw [List.filter_append, List.map_append, h1]
    simp
  · rw [List.nodup_append]
    refine ⟨h2, List.nodup_singleton pid, ?_⟩
    intro a ha hb
    rw [List.mem_singleton] at hb
    subst hb
    exact hnotmem ha
  · intro l hl
    obtain ⟨⟨n1, hn1, hn1t⟩, ⟨n2, hn2, hn2t⟩⟩ := h3 l hl
    exact ⟨⟨n1, List.mem_append_left _ hn1, hn1t⟩,
           ⟨n2, List.mem_append_left _ hn2, hn2t⟩⟩
  · intro hf n hn
    rcases List.mem_append.mp hn with hn | hn
    · exact h4 hf n hn
    · rw [List.mem_singleton] at hn
      subst hn
      simp
  · intro hf
    rw [hf] at hshow
    exact absurd hshow (by simp)
  · exact h6
  · simp [h7]
  · intro k hk
    rw [List.length_append, List.length_singleton] at hk
    by_cases hkl : k < st.nodes.length
    · rw [List.getElem_append_left hkl]
      exact h8 k hkl
    · have hke : k = st.nodes.length := by omega
      subst hke
      rw [List.getElem_concat_length _ _ _ rfl]
      rw [← h7]
      exact ⟨rfl, rfl⟩

/-- Pushing the threat's node preserves the invariant and makes the threat
node present. -/
theorem graphInv_push_threat {f : GraphFilters} {width height : ℝ}
    {totalNodes : ℕ} {st : BuildState} (hinv : GraphInv f width height totalNodes st)
    (t : Threat) (hshow : f.showThreats = true) :
    GraphInv f width height totalNodes
      { st with
          nodes := st.nodes ++
            [{ id := t.id, label := t.threat_name, type := NodeType.threat,
               severity := some t.severity,
               x := seedX width (seedRadius width height) st.nodeIndex totalNodes,
               y := seedY height (seedRadius width height) st.nodeIndex totalNodes }]
          nodeIndex := st.nodeIndex + 1 } := by
  obtain ⟨h1, h2, h3, h4, h5, h6, h7, h8⟩ := hinv
  refine ⟨?_, h2, ?_, ?_, ?_, h6, ?_, ?_⟩
  · rw [List.filter_append]
    simp only [List.filter_cons, List.filter_nil]
    rw [h1.symm]
    simp
  · intro l hl
    obtain ⟨⟨n1, hn1, hn1t⟩, ⟨n2, hn2, hn2t⟩⟩ := h3 l hl
    exact ⟨⟨n1, List.mem_append_left _ hn1, hn1t⟩,
           ⟨n2, List.mem_append_left _ hn2, hn2t⟩⟩
  · intro hf
    rw [hf] at hshow
    exact absurd hshow (by simp)
  · intro hf n hn
    rcases List.mem_append.mp hn with hn | hn
    · exact h5 hf n hn
    · rw [List.mem_singleton] at hn
      subst hn
      simp
  · simp [h7]
  · intro k hk
    rw [List.length_append, List.length_singleton] at hk
    by_cases hkl : k < st.nodes.length
    · rw [List.getElem_append_left hkl]
      exact h8 k hkl
    · have hke : k = st.nodes.length := by omega
      subst hke
      rw [List.getElem_concat_length _ _ _ rfl]
      rw [← h7]
      exact ⟨rfl, rfl⟩

/-- From the invariant: a recorded product id has an asset node. -/
theorem asset_node_of_mem_assetIds {f : GraphFilters} {width height : ℝ}
    {totalNodes : ℕ} {st : BuildState}
    (hinv : GraphInv f width height totalNodes st) (pid : String)
    (hmem : pid ∈ st.assetIds) :
    ∃ n ∈ st.nodes, n.type = NodeType.asset ∧ n.id = pid := by
  obtain ⟨h1, _, _, _, _, _, _, _⟩ := hinv
  rw [← h1] at hmem
  obtain ⟨n, hn, hnid⟩ := List.mem_map.mp hmem
  have hf := List.mem_filter.mp hn
  exact ⟨n, hf.1, by simpa using hf.2, hnid⟩

/-- `assetStep` preserves the invariant and threat-node presence, keeps all
recorded asset ids, and records the processed asset's id when assets are
shown. -/
theorem assetStep_inv {f : GraphFilters} {width height : ℝ} {totalNodes : ℕ}
    {t : Threat} {st : BuildState}
    (hinv : GraphInv f width height totalNodes st)
    (htp : ThreatNodePresent f t st) (a : RadarThreatAsset) :
    GraphInv f width height totalNodes (assetStep f width height totalNodes t st a)
    ∧ ThreatNodePresent f t (assetStep f width height totalNodes t st a)
    ∧ (∀ pid ∈ st.assetIds,
        pid ∈ (assetStep f width height totalNodes t st a).assetIds)
    ∧ (f.showAssets = true →
        a.product_id ∈ (assetStep f width height totalNodes t st a).assetIds) := by
  unfold assetStep
  by_cases hc1 : f.showAssets = true ∧ st.assetIds.contains a.product_id = false
  · rw [if_pos hc1]
    have hinv3 := graphInv_push_asset hinv a.product_id a.product_name hc1.1 hc1.2
    by_cases hc2 : f.showThreats = true ∧ f.showAssets = true
    · rw [if_pos hc2]
      have htp3 : ∃ n ∈ st.nodes ++
          [{ id := a.product_id, label := a.product_name,
             type := NodeType.asset, severity := none,
             x := seedX width (seedRadius width height) st.nodeIndex totalNodes,
             y := seedY height (seedRadius width height) st.nodeIndex totalNodes }],
          n.type = NodeType.threat ∧ n.id = t.id := by
        obtain ⟨n, hn, hnp⟩ := htp hc2.1
        exact ⟨n, List.mem_append_left _ hn, hnp⟩
      have htgt := asset_node_of_mem_assetIds hinv3 a.product_id (by simp)
      refine ⟨graphInv_push_link hinv3 hc2 htp3 htgt, ?_, ?_, ?_⟩
      · intro hs
        obtain ⟨n, hn, hnp⟩ := htp hs
        exact ⟨n, List.mem_append_left _ hn, hnp⟩
      · intro pid hpid
        exact List.mem_append_left _ hpid
      · intro _
        simp
    · rw [if_neg hc2]
      refine ⟨hinv3, ?_, ?_, ?_⟩
      · intro hs
        obtain ⟨n, hn, hnp⟩ := htp hs
        exact ⟨n, List.mem_append_left _ hn, hnp⟩
      · intro pid hpid
        exact List.mem_append_left _ hpid
      · intro _
        simp
  · rw [if_neg hc1]
    have hmem2 : f.showAssets = true → a.product_id ∈ st.assetIds := by
      intro hs
      by_cases hcont : st.assetIds.contains a.product_id = false
      · exact absurd ⟨hs, hcont⟩ hc1
      · have : st.assetIds.contains a.product_id = true := by
          cases hcv : st.assetIds.contains a.product_id
          · exact absurd hcv hcont
          · rfl
        simpa using this
    by_cases hc2 : f.showThreats = true ∧ f.showAssets = true
    · rw [if_pos hc2]
      have htgt := asset_node_of_mem_assetIds hinv a.product_id (hmem2 hc2.2)
      refine ⟨graphInv_push_link hinv hc2 (htp hc2.1) htgt, htp, ?_, hmem2⟩
      · intro pid hpid
        exact hpid
    · rw [if_neg hc2]
      exact ⟨hinv, htp, fun pid hpid => hpid, hmem2⟩

/-- Folding `assetStep` over the asset list preserves the invariant and
threat-node presence, keeps recorded ids, and records every processed
asset's id when assets are shown. -/
theorem assetFold_inv {f : GraphFilters} {width height : ℝ} {totalNodes : ℕ}
    {t : Threat} (assets : List RadarThreatAsset) :
    ∀ {st : BuildState}, GraphInv f width height totalNodes st →
      ThreatNodePresent f t st →
      GraphInv f width height totalNodes
        (assets.foldl (assetStep f width height totalNodes t) st)
      ∧ ThreatNodePresent f t
        (assets.foldl (assetStep f width height totalNodes t) st)
      ∧ (∀ pid ∈ st.assetIds,
          pid ∈ (assets.foldl (assetStep f width height totalNodes t) st).assetIds)
      ∧ (f.showAssets = true → ∀ a ∈ assets,
          a.product_id ∈
            (assets.foldl (assetStep f width height totalNodes t) st).assetIds) := by
  induction assets with
  | nil =>
      intro st hinv htp
      exact ⟨hinv, htp, fun pid hpid => hpid, fun _ a ha => absurd ha (by simp)⟩
  | cons a rest ih =>
      intro st hinv htp
      rw [List.foldl_cons]
      obtain ⟨hinv1, htp1, hkeep1, hrec1⟩ := assetStep_inv hinv htp a
      obtain ⟨hinv2, htp2, hkeep2, hrec2⟩ := ih hinv1 htp1
      refine ⟨hinv2, htp2, ?_, ?_⟩
      · intro pid hpid
        exact hkeep2 pid (hkeep1 pid hpid)
      · intro hs b hb
        rcases List.mem_cons.mp hb with rfl | hb2
        · exact hkeep2 _ (hrec1 hs)
        · exact hrec2 hs b hb2

/-- `threatStep` preserves the invariant, keeps recorded asset ids, and
records every impacted asset's id when assets are shown. -/
theorem threatStep_inv {f : GraphFilters} {width height : ℝ} {totalNodes : ℕ}
    {st : BuildState} (hinv : GraphInv f width height totalNodes st)
    (t : Threat) :
    GraphInv f width height totalNodes (threatStep f width height totalNodes st t)
    ∧ (∀ pid ∈ st.assetIds,
        pid ∈ (threatStep f width height totalNodes st t).assetIds)
    ∧ (f.showAssets = true → ∀ a ∈ t.assets_impacted,
        a.product_id ∈ (threatStep f width height totalNodes st t).assetIds) := by
  unfold threatStep
  by_cases hc : f.showThreats = true
  · rw [if_pos hc]
    have hinv1 := graphInv_push_threat hinv t hc
    have htp1 : ThreatNodePresent f t
        { st with
            nodes := st.nodes ++
              [{ id := t.id, label := t.threat_name, type := NodeType.threat,
                 severity := some t.severity,
                 x := seedX width (seedRadius width height) st.nodeIndex totalNodes,
                 y := seedY height (seedRadius width height) st.nodeIndex totalNodes }]
            nodeIndex := st.nodeIndex + 1 } := by
      intro _
      refine ⟨_, List.mem_append_right _ (List.mem_singleton.mpr rfl), rfl, rfl⟩
    obtain ⟨hinv2, _, hkeep2, hrec2⟩ := assetFold_inv t.assets_impacted hinv1 htp1
    exact ⟨hinv2, fun pid hpid => hkeep2 pid hpid, hrec2⟩
  · rw [if_neg hc]
    have htp1 : ThreatNodePresent f t st := by
      intro hs
      exact absurd hs hc
    obtain ⟨hinv2, _, hkeep2, hrec2⟩ := assetFold_inv t.assets_impacted hinv htp1
    exact ⟨hinv2, fun pid hpid => hkeep2 pid hpid, hrec2⟩

/-- Recorded asset ids persist through the outer fold. -/
theorem threatFold_keep {f : GraphFilters} {width height : ℝ} {totalNodes : ℕ}
    (threats : List Threat) :
    ∀ {st : BuildState}, GraphInv f width height totalNodes st →
      ∀ pid ∈ st.assetIds,
        pid ∈ (threats.foldl (threatStep f width height totalNodes) st).assetIds := by
  induction threats with
  | nil =>
      intro st _ pid hpid
      simpa using hpid
  | cons t rest ih =>
      intro st hinv pid hpid
      rw [List.foldl_cons]
      obtain ⟨hinv1, hkeep1, _⟩ := threatStep_inv hinv t
      exact ih hinv1 pid (hkeep1 pid hpid)

/-- Folding `threatStep` over the filtered threats preserves the invariant
and records every impacted asset id when assets are shown. -/
theorem threatFold_inv {f : GraphFilters} {width height : ℝ} {totalNodes : ℕ}
    (threats : List Threat) :
    ∀ {st : BuildState}, GraphInv f width height totalNodes st →
      GraphInv f width height totalNodes
        (threats.foldl (threatStep f width height totalNodes) st)
      ∧ (f.showAssets = true → ∀ t ∈ threats, ∀ a ∈ t.assets_impacted,
          a.product_id ∈
            (threats.foldl (threatStep f width height totalNodes) st).assetIds) := by
  induction threats with
  | nil =>
      intro st hinv
      exact ⟨hinv, fun _ t ht => absurd ht (by simp)⟩
  | cons t rest ih =>
      intro st hinv
      rw [List.foldl_cons]
      obtain ⟨hinv1, hkeep1, hrec1⟩ := threatStep_inv hinv t
      obtain ⟨hinv2, hrec2⟩ := ih hinv1
      refine ⟨hinv2, ?_⟩
      intro hs u hu a ha
      rcases List.mem_cons.mp hu with rfl | hu2
      · exact threatFold_keep rest hinv1 _ (hrec1 hs a ha)
      · exact hrec2 hs u hu2 a ha

end Graph

/-- C8: in the graph construction there is exactly one asset node per unique
asset product id across the included (severity-filtered) threats — the
asset-node id list is duplicate-free and every impacted asset of every
included threat has its node when assets are shown; threat nodes appear
only when `showThreats`, asset nodes only when `showAssets`; links exist
only when both are shown; and every link's source is a present threat node
and its target a present asset node (threat↔asset only, no link to a
filtered-out node). -/
theorem buildGraph_invariants (threats : List Threat) (f : GraphFilters)
    (width height : ℝ) :
    ((((Graph.buildGraph threats f width height).1.filter
        (fun n => n.type == NodeType.asset)).map GraphNode.id).Nodup)
    ∧ (f.showThreats = false →
        ∀ n ∈ (Graph.buildGraph threats f width height).1,
          n.type ≠ NodeType.threat)
    ∧ (f.showAssets = false →
        ∀ n ∈ (Graph.buildGraph threats f width height).1,
          n.type ≠ NodeType.asset)
    ∧ ((f.showThreats && f.showAssets) = false →
        (Graph.buildGraph threats f width height).2 = [])
    ∧ (∀ l ∈ (Graph.buildGraph threats f width height).2,
        (∃ n ∈ (Graph.buildGraph threats f width height).1,
            n.type = NodeType.threat ∧ n.id = l.source)
        ∧ (∃ n ∈ (Graph.buildGraph threats f width height).1,
            n.type = NodeType.asset ∧ n.id = l.target))
    ∧ (f.showAssets = true →
        ∀ t ∈ threats.filter (fun t => f.severities.contains t.severity),
          ∀ a ∈ t.assets_impacted,
            ∃ n ∈ (Graph.buildGraph threats f width height).1,
              n.type = NodeType.asset ∧ n.id = a.product_id) := by
  obtain ⟨hinv, hrec⟩ := Graph.threatFold_inv
    (threats.filter (fun t => f.severities.contains t.severity))
    (Graph.graphInv_init f width height
      (Graph.graphTotalNodes
        (threats.filter (fun t => f.severities.contains t.severity))))
  have hinv2 := hinv
  obtain ⟨h1, h2, h3, h4, h5, h6, _, _⟩ := hinv2
  simp only [Graph.buildGraph]
  refine ⟨?_, h4, h5, h6, h3, ?_⟩
  · rw [h1]
    exact h2
  · intro hs t ht a ha
    exact Graph.asset_node_of_mem_assetIds hinv a.product_id (hrec hs t ht a ha)

/-- Witness for `buildGraph_invariants`: with assets hidden the link list of
a concrete build is empty. -/
theorem buildGraph_invariants_witness :
    (Graph.buildGraph [t1Threat]
      { showThreats := true, showAssets := false,
        severities := [SeverityLevel.critical] } 800 600).2 = [] :=
  (buildGraph_invariants [t1Threat]
    { showThreats := true, showAssets := false,
      severities := [SeverityLevel.critical] } 800 600).2.2.2.1 rfl

/-! ## Force simulation, pinning and determinism (`renderGraph`,
simulation/pinning section) -/

/-- Modelled from the spec: the d3-force physics engine is an external
library dependency, not part of this repository's sources; the spec treats
it as a pluggable physics step (`applyForces(nodes, links, params)`) called
in a fixed loop, deterministic for a given input (d3-force v3 seeds its
internal jiggle randomness per simulation). It is abstracted here as an
arbitrary pure per-tick function on the node array, iterated for the
source's fixed budget of 300 synchronous `simulation.tick()` calls. -/
def runSimulation (tick : List GraphNode → List GraphNode)
    (nodes : List GraphNode) : List GraphNode :=
  tick^[300] nodes

/-- `simulation.stop()` followed by the pinning pass: every node's `fx`/`fy`
is set to its current `x`/`y`, so no later force evaluation can move it. -/
def pinNodes (nodes : List GraphNode) : List GraphNode :=
  nodes.map fun n => { n with fx := some n.x, fy := some n.y }

/-- The layout part of a `renderGraph` pass: build the node/link arrays
(circle-seeded), run the simulation synchronously for exactly 300 ticks,
stop it, and pin every node at its final coordinates. -/
noncomputable def renderGraphLayout (tick : List GraphNode → List GraphNode)
    (threats : List Threat) (f : GraphFilters) (width height : ℝ) :
    List GraphNode × List GraphLink :=
  let bg := Graph.buildGraph threats f width height
  (pinNodes (runSimulation tick bg.1), bg.2)

/-- C9: after the 300-tick synchronous simulation every node of the layout
pass is pinned (`fx`/`fy` equal its final `x`/`y`), so the layout cannot
continue moving; re-invoking the pass with unchanged input (and the same
physics step) produces identical output; and the initial positions are
seeded deterministically on a circle — the k-th pushed node sits at angle
`k/totalNodes·2π` at the fixed seed radius, not at a random position. -/
theorem renderGraph_pinned_deterministic
    (tick : List GraphNode → List GraphNode) (threats : List Threat)
    (f : GraphFilters) (width height : ℝ) :
    (∀ n ∈ (renderGraphLayout tick threats f width height).1,
        n.fx = some n.x ∧ n.fy = some n.y)
    ∧ (∀ (threats2 : List Threat) (f2 : GraphFilters) (w2 h2 : ℝ),
        threats = threats2 → f = f2 → width = w2 → height = h2 →
          renderGraphLayout tick threats f width height =
            renderGraphLayout tick threats2 f2 w2 h2)
    ∧ (∀ (k : ℕ) (hk : k < (Graph.buildGraph threats f width height).1.length),
        (Graph.buildGraph threats f width height).1[k].x =
          Graph.seedX width (Graph.seedRadius width height) k
            (Graph.graphTotalNodes
              (threats.filter (fun t => f.severities.contains t.severity)))
        ∧ (Graph.buildGraph threats f width height).1[k].y =
          Graph.seedY height (Graph.seedRadius width height) k
            (Graph.graphTotalNodes
              (threats.filter (fun t => f.severities.contains t.severity)))) := by
  refine ⟨?_, ?_, ?_⟩
  · intro n hn
    obtain ⟨m, _, rfl⟩ := List.mem_map.mp hn
    exact ⟨rfl, rfl⟩
  · intro threats2 f2 w2 h2 ht hf hw hh
    subst ht; subst hf; subst hw; subst hh
    rfl
  · obtain ⟨hinv, _⟩ := Graph.threatFold_inv
      (threats.filter (fun t => f.severities.contains t.severity))
      (Graph.graphInv_init f width height
        (Graph.graphTotalNodes
          (threats.filter (fun t => f.severities.contains t.severity))))
    obtain ⟨_, _, _, _, _, _, _, h8⟩ := hinv
    exact h8

/-- Witness for `renderGraph_pinned_deterministic`: two invocations of the
layout pass on identical concrete inputs coincide. -/
theorem renderGraph_pinned_deterministic_witness :
    renderGraphLayout (fun nodes => nodes) [t1Threat]
      { showThreats := true, showAssets := true,
        severities := [SeverityLevel.critical] } 800 600 =
      renderGraphLayout (fun nodes => nodes) [t1Threat]
        { showThreats := true, showAssets := true,
          severities := [SeverityLevel.critical] } 800 600 :=
  (renderGraph_pinned_deterministic (fun nodes => nodes) [t1Threat]
    { showThreats := true, showAssets := true,
      severities := [SeverityLevel.critical] } 800 600).2.1
    [t1Threat] _ 800 600 rfl rfl rfl rfl

/-! ## Radar layout, quadrant model (`RadarCanvas.tsx`, quadrant revision:
`hashToAngleOffset` and the quadrant-based `threatPositions`, with the
canvas size a component state). -/

/-- Both-sided bounds of the truncated remainder for a positive modulus. -/
theorem tmod_both_bounds (x m : Int) (hm : 0 < m) :
    -m < x.tmod m ∧ x.tmod m < m := by
  constructor
  · rcases le_or_lt 0 x with hx | hx
    · have := Int.tmod_nonneg m hx
      omega
    · have hx2 : x.tmod m = -((-x).tmod m) := by
        rw [← tmod_neg_numerator, neg_neg]
      have := Int.tmod_lt_of_pos (-x) hm
      omega
  · exact Int.tmod_lt_of_pos x hm

namespace Quadrant

def rings : ℕ := 4

noncomputable def ringGap (size : ℝ) : ℝ := size * 0.85 / (2 * rings)

/-- `severityToRing`: critical = 1 … low = 4. -/
def severityToRing : SeverityLevel → ℕ
  | SeverityLevel.critical => 1
  | SeverityLevel.high => 2
  | SeverityLevel.medium => 3
  | SeverityLevel.low => 4

/-- Quadrant angle ranges in canvas degrees (0° = right, clockwise). -/
def quadrantAngleRange : QuadrantType → ℤ × ℤ
  | QuadrantType.post_detect => (0, 90)
  | QuadrantType.pre_detect => (90, 180)
  | QuadrantType.pre_protect => (180, 270)
  | QuadrantType.post_protect => (270, 360)

/-- `hashToAngleOffset`:
`Math.abs(hash % Math.floor(range * 0.8)) + range * 0.1` on the signed
32-bit hash ("keep away from edges"). (JS note: when
`Math.floor(range*0.8)` is 0 — canvas sizes below 24px — the JS `%` yields
`NaN`; `Int.tmod x 0 = x` in the embedding, which is why the claims below
are settled against sizes where the modulus is positive, or exhibit the
degenerate collapse at size 0 where the radius clamp is `[0,0]` either
way.) -/
noncomputable def hashToAngleOffset (id : String) (range : ℝ) : ℝ :=
  ((((toInt32 (jsStringHash id)).tmod ⌊range * 0.8⌋).natAbs : ℕ) : ℝ)
    + range * 0.1

/-- Position record of the quadrant revision (carries the quadrant). -/
structure QuadPosition where
  id : String
  x : ℝ
  y : ℝ
  threat : Threat
  quadrant : QuadrantType

/-- The angle within the threat's quadrant:
`min + hashToAngleOffset(id, max - min)`. -/
noncomputable def threatAngle (threat : Threat) : ℝ :=
  let quadrant := getQuadrant threat
  let mn := (quadrantAngleRange quadrant).1
  let mx := (quadrantAngleRange quadrant).2
  let angleRange := (mx : ℝ) - (mn : ℝ)
  let angleOffset := hashToAngleOffset threat.id angleRange
  (mn : ℝ) + angleOffset

/-- The radius: severity ring base plus a hash jitter, clamped with
`Math.max(ringGap*0.5, Math.min(maxRadius, baseRadius + radiusOffset))`. -/
noncomputable def threatRadius (size : ℝ) (threat : Threat) : ℝ :=
  let ring := severityToRing threat.severity
  let maxRadius := ringGap size * (rings : ℝ)
  let baseRadius := ((ring : ℝ) / (rings : ℝ)) * maxRadius
  let radiusOffset := hashToAngleOffset (threat.id ++ "r") (ringGap size * 0.5)
    - ringGap size * 0.25
  max (ringGap size * 0.5) (min maxRadius (baseRadius + radiusOffset))

/-- One entry of the quadrant-model `threatPositions`. -/
noncomputable def threatPosition (size : ℝ) (threat : Threat) : QuadPosition :=
  let center := size / 2
  let angle := threatAngle threat
  let radius := threatRadius size threat
  { id := threat.id,
    x := center + radius * Real.cos (angle * Real.pi / 180),
    y := center + radius * Real.sin (angle * Real.pi / 180),
    threat := threat,
    quadrant := getQuadrant threat }

/-- The quadrant-model `threatPositions` (the source also tallies
`quadrantCounts`, which is never read afterwards). -/
noncomputable def threatPositions (size : ℝ) (threats : List Threat) :
    List QuadPosition :=
  threats.foldl (fun positions threat =>
    positions ++ [threatPosition size threat]) []

end Quadrant

/-- C10 counterexample: at canvas size 0 the radius clamp degenerates to
`[0, 0]` and the dot lands exactly at the center `(size/2, size/2) = (0,0)`,
contradicting "no dot is placed at the exact center … for every canvas
size". (In the JS source the same input degenerates through `hash % 0 =
NaN` to a `NaN` position, which equally violates the claimed placement
strictly inside the quadrant's ring band.) -/
theorem quadrant_layout_center_counterexample :
    (Quadrant.threatPosition 0 t1Threat).x = 0 / 2
    ∧ (Quadrant.threatPosition 0 t1Threat).y = 0 / 2 := by
  have hrg : Quadrant.ringGap 0 = 0 := by
    norm_num [Quadrant.ringGap]
  have hr : Quadrant.threatRadius 0 t1Threat = 0 := by
    simp only [Quadrant.threatRadius, hrg]
    have hX : (0:ℝ) ≤ Quadrant.hashToAngleOffset (t1Threat.id ++ "r") (0 * 0.5) := by
      simp only [Quadrant.hashToAngleOffset]
      positivity
    have hmin : min ((0:ℝ) * (Quadrant.rings : ℝ))
        (((Quadrant.severityToRing t1Threat.severity : ℝ) / (Quadrant.rings : ℝ)) *
          ((0:ℝ) * (Quadrant.rings : ℝ)) +
          (Quadrant.hashToAngleOffset (t1Threat.id ++ "r") ((0:ℝ) * 0.5)
            - (0:ℝ) * 0.25)) = 0 := by
      rw [min_eq_left] <;> nlinarith [hX]
    rw [hmin]
    norm_num
  constructor <;>
    · show _ + Quadrant.threatRadius 0 t1Threat * _ = _
      rw [hr]
      norm_num

/-- C10 (amended to canvas sizes ≥ 100, the threshold below which the
source's own draw guard skips rendering; smaller sizes degenerate — see
`quadrant_layout_center_counterexample`): the hash angle offset lies in
`[0.1·90, 0.9·90)` of the quadrant's 90° range, the angle is strictly
inside the quadrant (never on a boundary axis), the radius is clamped to
`[ringGap·0.5, ringGap·rings]`, the dot is never at the exact center, and
its distance from the center never exceeds the outermost ring. -/
theorem quadrant_layout_bounds (size : ℝ) (hsize : 100 ≤ size) (t : Threat) :
    (0.1 * 90 ≤ Quadrant.hashToAngleOffset t.id 90
      ∧ Quadrant.hashToAngleOffset t.id 90 < 0.9 * 90)
    ∧ (((Quadrant.quadrantAngleRange (getQuadrant t)).1 : ℝ) <
          Quadrant.threatAngle t
      ∧ Quadrant.threatAngle t <
          ((Quadrant.quadrantAngleRange (getQuadrant t)).2 : ℝ))
    ∧ (Quadrant.ringGap size * 0.5 ≤ Quadrant.threatRadius size t
      ∧ Quadrant.threatRadius size t ≤
          Quadrant.ringGap size * (Quadrant.rings : ℝ))
    ∧ ((Quadrant.threatPosition size t).x, (Quadrant.threatPosition size t).y)
        ≠ (size / 2, size / 2)
    ∧ Real.sqrt (((Quadrant.threatPosition size t).x - size / 2) ^ 2 +
        ((Quadrant.threatPosition size t).y - size / 2) ^ 2) ≤
          Quadrant.ringGap size * (Quadrant.rings : ℝ) := by
  have hoff : ∀ id : String, (9:ℝ) ≤ Quadrant.hashToAngleOffset id 90
      ∧ Quadrant.hashToAngleOffset id 90 ≤ 80 := by
    intro id
    unfold Quadrant.hashToAngleOffset
    have h72 : ⌊(90:ℝ) * 0.8⌋ = 72 := by norm_num
    rw [h72]
    have hb := tmod_both_bounds (toInt32 (jsStringHash id)) 72 (by norm_num)
    have habs : ((toInt32 (jsStringHash id)).tmod 72).natAbs ≤ 71 := by omega
    have hcast : ((((toInt32 (jsStringHash id)).tmod 72).natAbs : ℕ) : ℝ) ≤ 71 := by
      exact_mod_cast habs
    have hcast0 : (0:ℝ) ≤ ((((toInt32 (jsStringHash id)).tmod 72).natAbs : ℕ) : ℝ) :=
      Nat.cast_nonneg _
    constructor <;> norm_num <;> linarith
  have hoff2 := hoff t.id
  have hrange : ((Quadrant.quadrantAngleRange (getQuadrant t)).2 : ℝ) -
      ((Quadrant.quadrantAngleRange (getQuadrant t)).1 : ℝ) = 90 := by
    cases hq : getQuadrant t <;> simp [Quadrant.quadrantAngleRange] <;> norm_num
  have hangle : Quadrant.threatAngle t =
      ((Quadrant.quadrantAngleRange (getQuadrant t)).1 : ℝ) +
        Quadrant.hashToAngleOffset t.id 90 := by
    simp only [Quadrant.threatAngle]
    rw [hrange]
  have hg0 : (10:ℝ) ≤ Quadrant.ringGap size := by
    unfold Quadrant.ringGap Quadrant.rings
    push_cast
    linarith
  have hrings4 : ((Quadrant.rings : ℕ) : ℝ) = 4 := by
    norm_num [Quadrant.rings]
  have hclamp_lo : Quadrant.ringGap size * 0.5 ≤ Quadrant.threatRadius size t := by
    unfold Quadrant.threatRadius
    exact le_max_left _ _
  have hclamp_hi : Quadrant.threatRadius size t ≤
      Quadrant.ringGap size * (Quadrant.rings : ℝ) := by
    unfold Quadrant.threatRadius
    apply max_le
    · rw [hrings4]; linarith
    · exact le_trans (min_le_left _ _) (le_refl _)
  have hr0 : 0 ≤ Quadrant.threatRadius size t := by linarith
  have hrpos : 0 < Quadrant.threatRadius size t := by linarith
  have hsq : ((Quadrant.threatPosition size t).x - size / 2) ^ 2 +
      ((Quadrant.threatPosition size t).y - size / 2) ^ 2 =
      Quadrant.threatRadius size t ^ 2 := by
    show (size / 2 + Quadrant.threatRadius size t *
        Real.cos (Quadrant.threatAngle t * Real.pi / 180) - size / 2) ^ 2 +
      (size / 2 + Quadrant.threatRadius size t *
        Real.sin (Quadrant.threatAngle t * Real.pi / 180) - size / 2) ^ 2 = _
    linear_combination (Quadrant.threatRadius size t ^ 2) *
      Real.sin_sq_add_cos_sq (Quadrant.threatAngle t * Real.pi / 180)
  refine ⟨⟨by norm_num; linarith [hoff2.1], by norm_num; linarith [hoff2.2]⟩,
    ⟨?_, ?_⟩, ⟨hclamp_lo, hclamp_hi⟩, ?_, ?_⟩
  · rw [hangle]
    linarith [hoff2.1]
  · rw [hangle]
    linarith [hoff2.2, hrange]
  · intro heq
    have hx := congrArg Prod.fst heq
    have hy := congrArg Prod.snd heq
    simp only at hx hy
    have hcx : Quadrant.threatRadius size t *
        Real.cos (Quadrant.threatAngle t * Real.pi / 180) = 0 := by
      have : size / 2 + Quadrant.threatRadius size t *
          Real.cos (Quadrant.threatAngle t * Real.pi / 180) = size / 2 := hx
      linarith
    have hcy : Quadrant.threatRadius size t *
        Real.sin (Quadrant.threatAngle t * Real.pi / 180) = 0 := by
      have : size / 2 + Quadrant.threatRadius size t *
          Real.sin (Quadrant.threatAngle t * Real.pi / 180) = size / 2 := hy
      linarith
    have hsq0 : Quadrant.threatRadius size t ^ 2 = 0 := by
      have h := hsq
      rw [show ((Quadrant.threatPosition size t).x - size / 2) =
          Quadrant.threatRadius size t *
            Real.cos (Quadrant.threatAngle t * Real.pi / 180) from by
        show size / 2 + _ * _ - size / 2 = _
        ring] at h
      rw [show ((Quadrant.threatPosition size t).y - size / 2) =
          Quadrant.threatRadius size t *
            Real.sin (Quadrant.threatAngle t * Real.pi / 180) from by
        show size / 2 + _ * _ - size / 2 = _
        ring] at h
      rw [hcx, hcy] at h
      nlinarith [h]
    nlinarith [hsq0, hrpos]
  · rw [hsq, Real.sqrt_sq hr0]
    exact hclamp_hi

/-- Witness for `quadrant_layout_bounds` at size 600 and the example
threat. -/
theorem quadrant_layout_bounds_witness :
    (0.1 * 90 ≤ Quadrant.hashToAngleOffset t1Threat.id 90
      ∧ Quadrant.hashToAngleOffset t1Threat.id 90 < 0.9 * 90)
    ∧ (((Quadrant.quadrantAngleRange (getQuadrant t1Threat)).1 : ℝ) <
          Quadrant.threatAngle t1Threat
      ∧ Quadrant.threatAngle t1Threat <
          ((Quadrant.quadrantAngleRange (getQuadrant t1Threat)).2 : ℝ))
    ∧ (Quadrant.ringGap 600 * 0.5 ≤ Quadrant.threatRadius 600 t1Threat
      ∧ Quadrant.threatRadius 600 t1Threat ≤
          Quadrant.ringGap 600 * (Quadrant.rings : ℝ))
    ∧ ((Quadrant.threatPosition 600 t1Threat).x,
        (Quadrant.threatPosition 600 t1Threat).y) ≠ ((600:ℝ) / 2, (600:ℝ) / 2)
    ∧ Real.sqrt (((Quadrant.threatPosition 600 t1Threat).x - 600 / 2) ^ 2 +
        ((Quadrant.threatPosition 600 t1Threat).y - 600 / 2) ^ 2) ≤
          Quadrant.ringGap 600 * (Quadrant.rings : ℝ) :=
  quadrant_layout_bounds 600 (by norm_num) t1Threat

end ThreatIntel
